import Mathlib

/-!
# Clinic record store: field codec, load/save, identifiers, integrity, CSV export

A shallow embedding of `src/main.cpp` (clinic management CLI).

Conventions of the embedding:
* `std::string` is `Str`, a list of characters, one `Char` per C++ `char`.
* `int` is `Int`.  Values read by `stoi` are range-checked against the 32-bit
  range as the library does; `m + 1` in the id assignment wraps around at
  2147483647 as the compiled program does (`wrapInt32`).
* An uncaught C++ exception (which terminates the process) is `Except.error`.
* Interactive input is passed to each operation as arguments.
* A backing file is `Option Str`: `none` when the file does not exist.
* The loop of the CSV quoting lambda is a well-founded recursion, hence total.
-/

namespace Clinic

/-- The type of C++ `std::string` values. -/
abbrev Str := List Char

/-- Record `struct Patient`. -/
structure Patient where
  id : Int
  name : Str
  age : Int
  gender : Str
  contact : Str
  notes : Str
  deriving DecidableEq, Repr

/-- Record `struct Appointment`. -/
structure Appointment where
  id : Int
  patient_id : Int
  doctor : Str
  date : Str
  time : Str
  reason : Str
  deriving DecidableEq, Repr

/-! ## Field codec -/

/-- Source `escapeField`: a pipe becomes backslash-pipe, a newline becomes
backslash-`n`, every other character (the backslash included) is copied. -/
def escapeField : Str → Str
  | [] => []
  | c :: s =>
    if c = '|' then '\\' :: '|' :: escapeField s
    else if c = '\n' then '\\' :: 'n' :: escapeField s
    else c :: escapeField s

/-- Source `unescapeField`: a backslash that has a successor `|` or `n` is
decoded together with it; every other character is copied. -/
def unescapeField : Str → Str
  | [] => []
  | [c] => [c]
  | c :: d :: r =>
    if c = '\\' ∧ d = '|' then '|' :: unescapeField r
    else if c = '\\' ∧ d = 'n' then '\n' :: unescapeField r
    else c :: unescapeField (d :: r)

/-- Loop of source `splitLine` with its three locals `parts`, `cur`, `esc`. -/
def splitLineLoop : Str → List Str → Str → Bool → List Str
  | [], parts, cur, _ => parts ++ [cur]
  | c :: rest, parts, cur, esc =>
    if esc then splitLineLoop rest parts (cur ++ [c]) false
    else if c = '\\' then splitLineLoop rest parts cur true
    else if c = '|' then splitLineLoop rest (parts ++ [cur]) [] false
    else splitLineLoop rest parts (cur ++ [c]) false

/-- Source `splitLine`. -/
def splitLine (line : Str) : List Str :=
  splitLineLoop line [] [] false

/-! ## Library functions used by the source -/

/-- Exceptions thrown by `std::stoi`. -/
inductive StoiError where
  | invalid_argument
  | out_of_range
  deriving DecidableEq, Repr

deriving instance DecidableEq for Except

/-- C `isspace` in the "C" locale: space, `\t`, `\n`, `\v`, `\f`, `\r`. -/
def isspace (c : Char) : Bool :=
  c = ' ' || c = '\t' || c = '\n' || c = Char.ofNat 11 || c = Char.ofNat 12 || c = '\r'

/-- Value of a run of decimal digits. -/
def digitsValue (ds : Str) : Int :=
  ds.foldl (fun a d => 10 * a + ((d.toNat : Int) - 48)) 0

/-- Library `std::stoi(s)` (base 10): skips leading white space, reads an
optional sign and the longest run of digits, ignores what follows; throws
`invalid_argument` when there is no digit and `out_of_range` when the value
does not fit a 32-bit `int`. -/
def stoi (s : Str) : Except StoiError Int :=
  let s1 := s.dropWhile isspace
  let neg := s1.head? = some '-'
  let s2 := match s1 with
    | '-' :: r => r
    | '+' :: r => r
    | _ => s1
  let ds := s2.takeWhile Char.isDigit
  if ds = [] then .error .invalid_argument
  else
    let v : Int := if neg then - digitsValue ds else digitsValue ds
    if v < -2147483648 ∨ 2147483647 < v then .error .out_of_range
    else .ok v

/-- Library `std::to_string(int)`: decimal digits, with a leading `-` for a
negative value. -/
def to_string (i : Int) : Str :=
  match i with
  | Int.ofNat n => Nat.toDigits 10 n
  | Int.negSucc n => '-' :: Nat.toDigits 10 (n + 1)

/-- Loop `while (getline(ifs, line))`: the lines of a file content, split at
`\n`; a final line without terminator counts when it is not empty. -/
def getlinesLoop : Str → Str → List Str
  | [], cur => if cur = [] then [] else [cur]
  | c :: rest, cur =>
    if c = '\n' then cur :: getlinesLoop rest []
    else getlinesLoop rest (cur ++ [c])

/-- All lines that successive `getline` calls deliver for a content. -/
def getlines (content : Str) : List Str :=
  getlinesLoop content []

/-- Characters `::tolower` over a string (`transform(..., ::tolower)`). -/
def lower (s : Str) : Str :=
  s.map Char.toLower

/-- Library `std::string::find(needle)` from position 0: the lowest position
at which `needle` occurs, `none` for `npos`. -/
def find : Str → Str → Option Nat
  | [], needle => if needle = [] then some 0 else none
  | c :: hay, needle =>
    if needle.isPrefixOf (c :: hay) then some 0
    else (find hay needle).map (· + 1)

/-- Library `std::remove_if` on a vector: the elements for which `pred` is
false are moved to the front in their order; the result is the vector
afterwards and the position of the returned iterator. What lies behind that
position is unspecified by the library; here it keeps its old value. -/
def remove_if {α : Type} (pred : α → Bool) (v : List α) : List α × Nat :=
  let kept := v.foldl (fun acc x => if pred x then acc else acc ++ [x]) []
  (kept ++ v.drop kept.length, kept.length)

/-- Library `v.erase(it, v.end())`. -/
def erase_to_end {α : Type} (v : List α) (it : Nat) : List α :=
  v.take it

/-! ## Load and save -/

/-- Assignments `p.id = ...; ... p.notes = ...;` of source `loadPatients`:
the record for the fields `f` of a line, the two integers parsed. -/
def patientOfFields (f : List Str) (id age : Int) : Patient :=
  { id := id
    name := unescapeField (f.getD 1 [])
    age := age
    gender := unescapeField (f.getD 3 [])
    contact := unescapeField (f.getD 4 [])
    notes := unescapeField (f.getD 5 []) }

/-- Loop body of source `loadPatients`, over the lines still to read and the
vector `v` built so far. An exception of `stoi` is not caught. -/
def loadPatientsLoop : List Str → List Patient → Except StoiError (List Patient)
  | [], v => .ok v
  | line :: rest, v =>
    if line = [] then loadPatientsLoop rest v
    else
      let f := splitLine line
      if f.length < 6 then loadPatientsLoop rest v
      else
        match stoi (unescapeField (f.getD 0 [])) with
        | .error e => .error e
        | .ok id =>
          match stoi (unescapeField (f.getD 2 [])) with
          | .error e => .error e
          | .ok age => loadPatientsLoop rest (v ++ [patientOfFields f id age])

/-- Source `loadPatients`, on the content of `patients.txt` (`none`: the file
cannot be opened, the empty vector is returned). -/
def loadPatients (file : Option Str) : Except StoiError (List Patient) :=
  match file with
  | none => .ok []
  | some content => loadPatientsLoop (getlines content) []

/-- One iteration of the loop of source `savePatients`: the line written. -/
def renderPatient (p : Patient) : Str :=
  escapeField (to_string p.id) ++ ['|'] ++ escapeField p.name ++ ['|']
    ++ escapeField (to_string p.age) ++ ['|'] ++ escapeField p.gender ++ ['|']
    ++ escapeField p.contact ++ ['|'] ++ escapeField p.notes ++ ['\n']

/-- Content that source `savePatients` writes to the truncated file. -/
def savePatientsContent (v : List Patient) : Str :=
  v.foldl (fun out p => out ++ renderPatient p) []

/-- Assignments `a.id = ...; ... a.reason = ...;` of source
`loadAppointments`: the record for the fields `f`, the two integers parsed. -/
def appointmentOfFields (f : List Str) (id pid : Int) : Appointment :=
  { id := id
    patient_id := pid
    doctor := unescapeField (f.getD 2 [])
    date := unescapeField (f.getD 3 [])
    time := unescapeField (f.getD 4 [])
    reason := unescapeField (f.getD 5 []) }

/-- Loop body of source `loadAppointments`. -/
def loadAppointmentsLoop : List Str → List Appointment → Except StoiError (List Appointment)
  | [], v => .ok v
  | line :: rest, v =>
    if line = [] then loadAppointmentsLoop rest v
    else
      let f := splitLine line
      if f.length < 6 then loadAppointmentsLoop rest v
      else
        match stoi (unescapeField (f.getD 0 [])) with
        | .error e => .error e
        | .ok id =>
          match stoi (unescapeField (f.getD 1 [])) with
          | .error e => .error e
          | .ok pid => loadAppointmentsLoop rest (v ++ [appointmentOfFields f id pid])

/-- Source `loadAppointments`, on the content of `appointments.txt`. -/
def loadAppointments (file : Option Str) : Except StoiError (List Appointment) :=
  match file with
  | none => .ok []
  | some content => loadAppointmentsLoop (getlines content) []

/-- One iteration of the loop of source `saveAppointments`. -/
def renderAppointment (a : Appointment) : Str :=
  escapeField (to_string a.id) ++ ['|'] ++ escapeField (to_string a.patient_id) ++ ['|']
    ++ escapeField a.doctor ++ ['|'] ++ escapeField a.date ++ ['|']
    ++ escapeField a.time ++ ['|'] ++ escapeField a.reason ++ ['\n']

/-- Content that source `saveAppointments` writes to the truncated file. -/
def saveAppointmentsContent (v : List Appointment) : Str :=
  v.foldl (fun out a => out ++ renderAppointment a) []

/-! ## Identifier assignment and lookup -/

/-- Value of a 32-bit `int` computation whose mathematical result is `x`, as
the compiled program delivers it: `x` itself inside the range of `int`, and
the two's-complement wrap-around outside (2147483647 + 1 gives -2147483648). -/
def wrapInt32 (x : Int) : Int :=
  (x + 2147483648) % 4294967296 - 2147483648

/-- Source `nextPatientId`; `m + 1` is a 32-bit `int` addition. -/
def nextPatientId (v : List Patient) : Int :=
  wrapInt32 (v.foldl (fun m p => max m p.id) 0 + 1)

/-- Source `nextAppointmentId`; `m + 1` is a 32-bit `int` addition. -/
def nextAppointmentId (v : List Appointment) : Int :=
  wrapInt32 (v.foldl (fun m a => max m a.id) 0 + 1)

/-- Source `searchPatientsByName`; each returned pointer is rendered as the
record it points to. -/
def searchPatientsByName (patients : List Patient) (term : Str) : List Patient :=
  let low := lower term
  patients.foldl
    (fun res p => if (find (lower p.name) low).isSome then res ++ [p] else res) []

/-! ## Store state and CRUD operations -/

/-- Both in-memory collections and the two backing files. -/
structure Store where
  patients : List Patient
  appointments : List Appointment
  patientsFile : Option Str
  appointmentsFile : Option Str
  deriving DecidableEq, Repr

/-- What an operation reports: its final message. -/
inductive Outcome where
  | done
  | notFound
  | cancelled
  deriving DecidableEq, Repr

/-- Source `savePatients(v)`: the file is truncated and rewritten. -/
def savePatients (v : List Patient) (st : Store) : Store :=
  { st with patientsFile := some (savePatientsContent v) }

/-- Source `saveAppointments(v)`. -/
def saveAppointments (v : List Appointment) (st : Store) : Store :=
  { st with appointmentsFile := some (saveAppointmentsContent v) }

/-- Source `addPatient`; `age` is the integer that `inputInt` delivers. -/
def addPatient (name : Str) (age : Int) (gender contact notes : Str) (st : Store) :
    Store × Outcome :=
  let p : Patient :=
    { id := nextPatientId st.patients, name := name, age := age, gender := gender,
      contact := contact, notes := notes }
  let patients := st.patients ++ [p]
  (savePatients patients { st with patients := patients }, .done)

/-- Source `findPatientById`: position of the first patient with that id. -/
def findPatientById : List Patient → Int → Option Nat
  | [], _ => none
  | p :: rest, id => if p.id = id then some 0 else (findPatientById rest id).map (· + 1)

/-- Source `findAppointmentById`. -/
def findAppointmentById : List Appointment → Int → Option Nat
  | [], _ => none
  | a :: rest, id => if a.id = id then some 0 else (findAppointmentById rest id).map (· + 1)

/-- Statement `if (!s.empty()) field = s;` of the edit operations: the new
value of a text field whose current value is `cur`, for the line `s` read. -/
def editedField (s cur : Str) : Str :=
  if s ≠ [] then s else cur

/-- Source `editPatient`; the five strings are the lines read, an empty line
keeps the current value. `stoi` on the age line may throw, uncaught. -/
def editPatient (id : Int) (name age gender contact notes : Str) (st : Store) :
    Except StoiError (Store × Outcome) :=
  match findPatientById st.patients id with
  | none => .ok (st, .notFound)
  | some i =>
    match st.patients.get? i with
    | none => .ok (st, .notFound)
    | some p =>
      match (if age ≠ [] then stoi age else .ok p.age) with
      | .error e => .error e
      | .ok a =>
        let p2 : Patient :=
          { id := p.id
            name := editedField name p.name
            age := a
            gender := editedField gender p.gender
            contact := editedField contact p.contact
            notes := editedField notes p.notes }
        let patients := st.patients.set i p2
        .ok (savePatients patients { st with patients := patients }, .done)

/-- Source `deletePatient`. -/
def deletePatient (id : Int) (st : Store) : Store × Outcome :=
  let r := remove_if (fun p : Patient => p.id == id) st.patients
  if r.2 = r.1.length then ({ st with patients := r.1 }, .notFound)
  else
    let patients := erase_to_end r.1 r.2
    let r2 := remove_if (fun a : Appointment => a.patient_id == id) st.appointments
    let st1 : Store :=
      if r2.2 ≠ r2.1.length then
        let appointments := erase_to_end r2.1 r2.2
        saveAppointments appointments { st with appointments := appointments }
      else { st with appointments := r2.1 }
    (savePatients patients { st1 with patients := patients }, .done)

/-- Source `addAppointment`; `pid` is the integer that `inputInt` delivers. -/
def addAppointment (pid : Int) (doctor date time reason : Str) (st : Store) :
    Store × Outcome :=
  let id := nextAppointmentId st.appointments
  let found := st.patients.any (fun p => p.id == pid)
  if !found then (st, .cancelled)
  else
    let a : Appointment :=
      { id := id, patient_id := pid, doctor := doctor, date := date, time := time,
        reason := reason }
    let appointments := st.appointments ++ [a]
    (saveAppointments appointments { st with appointments := appointments }, .done)

/-- Source `editAppointment`. -/
def editAppointment (id : Int) (doctor date time reason : Str) (st : Store) :
    Store × Outcome :=
  match findAppointmentById st.appointments id with
  | none => (st, .notFound)
  | some i =>
    match st.appointments.get? i with
    | none => (st, .notFound)
    | some a =>
      let a2 : Appointment :=
        { id := a.id
          patient_id := a.patient_id
          doctor := editedField doctor a.doctor
          date := editedField date a.date
          time := editedField time a.time
          reason := editedField reason a.reason }
      let appointments := st.appointments.set i a2
      (saveAppointments appointments { st with appointments := appointments }, .done)

/-- Source `deleteAppointment`. -/
def deleteAppointment (id : Int) (st : Store) : Store × Outcome :=
  let r := remove_if (fun a : Appointment => a.id == id) st.appointments
  if r.2 = r.1.length then ({ st with appointments := r.1 }, .notFound)
  else
    let appointments := erase_to_end r.1 r.2
    (saveAppointments appointments { st with appointments := appointments }, .done)

/-- The mutating menu choices of source `main` with the input they read. -/
inductive Op where
  | addPatient (name : Str) (age : Int) (gender contact notes : Str)
  | editPatient (id : Int) (name age gender contact notes : Str)
  | deletePatient (id : Int)
  | addAppointment (pid : Int) (doctor date time reason : Str)
  | editAppointment (id : Int) (doctor date time reason : Str)
  | deleteAppointment (id : Int)

/-- One mutating menu choice of source `main` (cases 1, 4, 5, 6, 8, 9). -/
def step (op : Op) (st : Store) : Except StoiError (Store × Outcome) :=
  match op with
  | .addPatient name age gender contact notes =>
    .ok (addPatient name age gender contact notes st)
  | .editPatient id name age gender contact notes =>
    editPatient id name age gender contact notes st
  | .deletePatient id => .ok (deletePatient id st)
  | .addAppointment pid doctor date time reason =>
    .ok (addAppointment pid doctor date time reason st)
  | .editAppointment id doctor date time reason =>
    .ok (editAppointment id doctor date time reason st)
  | .deleteAppointment id => .ok (deleteAppointment id st)

/-! ## CSV export -/

/-- Library `std::string::find(c, pos)`: the lowest position from `pos` on at
which the character `c` stands, `none` for `npos`. -/
def findChar : Str → Char → Nat → Option Nat
  | [], _, _ => none
  | x :: xs, c, 0 => if x = c then some 0 else (findChar xs c 0).map (· + 1)
  | _ :: xs, c, pos + 1 => (findChar xs c pos).map (· + 1)

/-- Library `t.insert(pos, "\"")` for a one-character string. -/
def insertAt (t : Str) (pos : Nat) (c : Char) : Str :=
  t.take pos ++ c :: t.drop pos

/-- Loop `while ((pos = t.find('"', pos)) != npos) { t.insert(pos, "\""); pos += 2; }`
of the lambda `esc`, on the locals `t` and `pos`; the value is `t` at loop exit.
Each round leaves fewer characters behind `pos`, so the loop ends. -/
def escLoop (t : Str) (pos : Nat) : Str :=
  match _h : findChar t '"' pos with
  | none => t
  | some q => escLoop (insertAt t q '"') (q + 2)
termination_by t.length - pos
decreasing_by
  have key : ∀ (l : Str) (c : Char) (i j : Nat), findChar l c i = some j → i ≤ j ∧ j < l.length := by
    intro l
    induction l with
    | nil => intro c i j hf; simp [findChar] at hf
    | cons x xs ih =>
      intro c i j hf
      cases i with
      | zero =>
        simp only [findChar] at hf
        split at hf
        · simp only [Option.some.injEq] at hf
          subst hf
          simp
        · simp only [Option.map_eq_some'] at hf
          obtain ⟨k, hk, hkj⟩ := hf
          have := ih c 0 k hk
          simp only [List.length_cons]
          omega
      | succ i =>
        simp only [findChar, Option.map_eq_some'] at hf
        obtain ⟨k, hk, hkj⟩ := hf
        have := ih c i k hk
        simp only [List.length_cons]
        omega
  have hq := key t '"' pos q _h
  simp only [insertAt, List.length_append, List.length_take, List.length_cons, List.length_drop]
  omega

/-- Lambda `esc` of source `exportPatientsCSV` and, with the same text, of
source `exportAppointmentsCSV`. -/
def esc (s : Str) : Str :=
  ['"'] ++ escLoop s 0 ++ ['"']

/-- Content that source `exportPatientsCSV` writes: header, then one row per
patient; `ofs << p.id` prints the integer in decimal. -/
def exportPatientsCSV (patients : List Patient) : Str :=
  patients.foldl
    (fun out p => out ++ to_string p.id ++ [','] ++ esc p.name ++ [','] ++ to_string p.age
      ++ [','] ++ esc p.gender ++ [','] ++ esc p.contact ++ [','] ++ esc p.notes ++ ['\n'])
    "id,name,age,gender,contact,notes\n".toList

/-- Content that source `exportAppointmentsCSV` writes. -/
def exportAppointmentsCSV (appointments : List Appointment) : Str :=
  appointments.foldl
    (fun out a => out ++ to_string a.id ++ [','] ++ to_string a.patient_id ++ [',']
      ++ esc a.doctor ++ [','] ++ esc a.date ++ [','] ++ esc a.time ++ [',']
      ++ esc a.reason ++ ['\n'])
    "id,patient_id,doctor,date,time,reason\n".toList

/-- Wording of the spec for a quoted CSV field: a double quote, the text with
every double quote doubled and every other character unchanged, a double quote. -/
def quotedField (s : Str) : Str :=
  ['"'] ++ s.flatMap (fun c => if c = '"' then ['"', '"'] else [c]) ++ ['"']

/-! ## Sample data -/

/-- A patient with the given id and name, other fields fixed. -/
def samplePatient (id : Int) (name : Str) : Patient :=
  { id := id, name := name, age := 30, gender := "F".toList, contact := "555".toList,
    notes := "ok".toList }

/-- An appointment with the given id and patient reference, other fields fixed. -/
def sampleAppointment (id pid : Int) : Appointment :=
  { id := id, patient_id := pid, doctor := "Dr A".toList, date := "2024-01-01".toList,
    time := "09:00".toList, reason := "check".toList }

/-- The store of the cascade example: patients 1 and 2, one appointment each. -/
def sampleStore : Store :=
  { patients := [samplePatient 1 "Jon Doe".toList, samplePatient 2 "Ann".toList]
    appointments := [sampleAppointment 1 1, sampleAppointment 2 2]
    patientsFile := none
    appointmentsFile := none }

/-- Patients with the identifiers 3, 7, 1 of the identifier example. -/
def samplePatients371 : List Patient :=
  [samplePatient 3 "A".toList, samplePatient 7 "B".toList, samplePatient 1 "C".toList]

/-- Appointments with the identifiers 3, 7, 1. -/
def sampleAppointments371 : List Appointment :=
  [sampleAppointment 3 1, sampleAppointment 7 1, sampleAppointment 1 2]

/-- A patients file with one well-formed line, a blank line and a line of
only three fields. -/
def sampleMixedPatientsFile : Str :=
  "1|Jon Doe|30|M|555|ok\n\n2|x|y\n".toList

/-- An appointments file with a three-field line before a well-formed line. -/
def sampleMixedAppointmentsFile : Str :=
  "9|9|z\n4|1|Dr A|2024-01-01|09:00|check\n".toList

/-- A patients file whose first line has six fields and the identifier `x`. -/
def sampleBadIdPatientsFile : Str :=
  "x|Bob|30|M|555|none\n2|Ann|41|F|556|ok\n".toList

/-- An appointments file whose first line has the patient reference `abc`. -/
def sampleBadRefAppointmentsFile : Str :=
  "1|abc|Dr A|2024-01-01|09:00|check\n2|1|Dr B|2024-01-02|10:00|flu\n".toList

/-- The sample store at start-up when `appointments.txt` holds the single line
of appointment 2 without a line terminator: the same collection is loaded,
and the file differs from what `saveAppointments` would write. -/
def sampleStoreUnterminatedFile : Store :=
  { patients := [samplePatient 1 "Jon Doe".toList, samplePatient 2 "Ann".toList]
    appointments := [sampleAppointment 2 2]
    patientsFile := some (savePatientsContent
      [samplePatient 1 "Jon Doe".toList, samplePatient 2 "Ann".toList])
    appointmentsFile := some "2|2|Dr A|2024-01-01|09:00|check".toList }

/-- Patients with the identifiers 1 and 2147483647, the largest `int`. -/
def samplePatientsMaxInt : List Patient :=
  [samplePatient 1 "A".toList, samplePatient 2147483647 "B".toList]

/-- Appointments with the identifiers 1 and 2147483647. -/
def sampleAppointmentsMaxInt : List Appointment :=
  [sampleAppointment 1 1, sampleAppointment 2147483647 1]

/-- A patients file holding the smallest and the largest `int` as identifiers. -/
def sampleExtremeIdsPatientsFile : Str :=
  "-2147483648|A|30|F|555|ok\n2147483647|B|30|F|555|ok\n".toList

/-- The store that start-up loads from `sampleExtremeIdsPatientsFile` and an
absent appointments file. -/
def sampleStoreExtremeIds : Store :=
  { patients := [samplePatient (-2147483648) "A".toList, samplePatient 2147483647 "B".toList]
    appointments := []
    patientsFile := some sampleExtremeIdsPatientsFile
    appointmentsFile := none }

/-- A store whose patient identifiers 1 and 2147483647 are both positive. -/
def sampleStoreMaxInt : Store :=
  { patients := samplePatientsMaxInt
    appointments := sampleAppointmentsMaxInt
    patientsFile := none
    appointmentsFile := none }

/-! ## Auxiliary facts on the library model -/

theorem foldl_keep_eq {α : Type} (pred : α → Bool) (v acc : List α) :
    v.foldl (fun acc x => if pred x then acc else acc ++ [x]) acc
      = acc ++ v.filter (fun x => !pred x) := by
  induction v generalizing acc with
  | nil => simp
  | cons x xs ih =>
    simp only [List.foldl_cons, ih, List.filter_cons]
    cases h : pred x <;> simp

theorem remove_if_snd {α : Type} (pred : α → Bool) (v : List α) :
    (remove_if pred v).2 = (v.filter (fun x => !pred x)).length := by
  simp [remove_if, foldl_keep_eq]

theorem remove_if_length {α : Type} (pred : α → Bool) (v : List α) :
    (remove_if pred v).1.length = v.length := by
  have h := List.length_filter_le (fun x => !pred x) v
  simp only [remove_if, foldl_keep_eq, List.nil_append, List.length_append, List.length_drop]
  omega

theorem remove_if_erase {α : Type} (pred : α → Bool) (v : List α) :
    erase_to_end (remove_if pred v).1 (remove_if pred v).2 = v.filter (fun x => !pred x) := by
  simp [remove_if, erase_to_end, foldl_keep_eq]

theorem remove_if_end_iff {α : Type} (pred : α → Bool) (v : List α) :
    (remove_if pred v).2 = (remove_if pred v).1.length ↔ ∀ x ∈ v, pred x = false := by
  rw [remove_if_snd, remove_if_length]
  constructor
  · intro h x hx
    have h2 : v.filter (fun x => !pred x) = v :=
      List.Sublist.eq_of_length (List.filter_sublist v) h
    have h3 := (List.filter_eq_self.mp h2) x hx
    simpa using h3
  · intro h
    have h2 : v.filter (fun x => !pred x) = v := by
      apply List.filter_eq_self.mpr
      intro x hx
      simp [h x hx]
    rw [h2]

theorem remove_if_fst_of_end {α : Type} (pred : α → Bool) (v : List α)
    (h : ∀ x ∈ v, pred x = false) : (remove_if pred v).1 = v := by
  have h2 : v.filter (fun x => !pred x) = v := by
    apply List.filter_eq_self.mpr
    intro x hx
    simp [h x hx]
  simp [remove_if, foldl_keep_eq, h2]

theorem foldl_max_spec {α : Type} (f : α → Int) (v : List α) (m0 : Int) :
    m0 ≤ v.foldl (fun m p => max m (f p)) m0 ∧
    (∀ p ∈ v, f p ≤ v.foldl (fun m p => max m (f p)) m0) ∧
    (v.foldl (fun m p => max m (f p)) m0 = m0 ∨
      ∃ p ∈ v, f p = v.foldl (fun m p => max m (f p)) m0) := by
  induction v generalizing m0 with
  | nil => simp
  | cons x xs ih =>
    obtain ⟨h1, h2, h3⟩ := ih (max m0 (f x))
    simp only [List.foldl_cons, List.mem_cons, forall_eq_or_imp, exists_eq_or_imp]
    refine ⟨le_trans (le_max_left _ _) h1, ⟨le_trans (le_max_right _ _) h1, h2⟩, ?_⟩
    rcases h3 with h3 | ⟨p, hp, hpe⟩
    · rcases le_total m0 (f x) with hle | hle
      · right; left; rw [h3, max_eq_right hle]
      · left; rw [h3, max_eq_left hle]
    · right; right; exact ⟨p, hp, hpe⟩

theorem map_set_of_get? {α β : Type} (f : α → β) (l : List α) (i : Nat) (p q : α)
    (hget : l.get? i = some p) (hf : f q = f p) : (l.set i q).map f = l.map f := by
  induction l generalizing i with
  | nil => simp
  | cons x xs ih =>
    cases i with
    | zero =>
      simp only [List.get?_cons_zero, Option.some.injEq] at hget
      simp [hget, hf]
    | succ j =>
      simp only [List.get?_cons_succ] at hget
      simp [ih j hget]

theorem wrapInt32_of_inRange (x : Int) (hlo : -2147483648 ≤ x) (hhi : x ≤ 2147483647) :
    wrapInt32 x = x := by
  unfold wrapInt32
  omega

theorem wrapInt32_succ_ne (m : Int) : wrapInt32 (m + 1) ≠ m := by
  unfold wrapInt32
  omega

theorem wrapInt32_le_self (x : Int) (h : -2147483648 ≤ x) : wrapInt32 x ≤ x := by
  unfold wrapInt32
  omega

theorem nextId_eq_of_below_max {α : Type} (f : α → Int) (v : List α)
    (h : ∀ p ∈ v, f p < 2147483647) :
    wrapInt32 (v.foldl (fun m p => max m (f p)) 0 + 1)
      = v.foldl (fun m p => max m (f p)) 0 + 1 := by
  obtain ⟨h0, _, hcase⟩ := foldl_max_spec f v 0
  apply wrapInt32_of_inRange
  · omega
  · rcases hcase with he | ⟨p, hp, hpe⟩
    · rw [he]; omega
    · have := h p hp
      omega

theorem nextPatientId_fresh (v : List Patient) (h : ∀ p ∈ v, p.id < 2147483647) :
    nextPatientId v ∉ v.map (fun p => p.id) := by
  intro hmem
  obtain ⟨p, hp, hpe⟩ := List.mem_map.mp hmem
  have hub := (foldl_max_spec (fun p : Patient => p.id) v 0).2.1 p hp
  have heq := nextId_eq_of_below_max (fun p : Patient => p.id) v h
  simp only [nextPatientId] at hpe
  simp only at heq hub
  omega

theorem nextAppointmentId_fresh (v : List Appointment) (h : ∀ a ∈ v, a.id < 2147483647) :
    nextAppointmentId v ∉ v.map (fun a => a.id) := by
  intro hmem
  obtain ⟨a, ha, hae⟩ := List.mem_map.mp hmem
  have hub := (foldl_max_spec (fun a : Appointment => a.id) v 0).2.1 a ha
  have heq := nextId_eq_of_below_max (fun a : Appointment => a.id) v h
  simp only [nextAppointmentId] at hae
  simp only at heq hub
  omega

theorem remove_if_result {α : Type} (pred : α → Bool) (v : List α) :
    (if (remove_if pred v).2 = (remove_if pred v).1.length then (remove_if pred v).1
      else erase_to_end (remove_if pred v).1 (remove_if pred v).2)
      = v.filter (fun x => !pred x) := by
  by_cases h : (remove_if pred v).2 = (remove_if pred v).1.length
  · rw [if_pos h]
    have hall := (remove_if_end_iff pred v).mp h
    rw [remove_if_fst_of_end pred v hall]
    symm
    apply List.filter_eq_self.mpr
    intro x hx
    simp [hall x hx]
  · rw [if_neg h, remove_if_erase]

theorem deletePatient_patients (id : Int) (st : Store) :
    (deletePatient id st).1.patients = st.patients.filter (fun p => !(p.id == id)) := by
  rw [← remove_if_result]
  unfold deletePatient
  by_cases h : (remove_if (fun p : Patient => p.id == id) st.patients).2
      = (remove_if (fun p : Patient => p.id == id) st.patients).1.length
  · simp only [h, if_true]
  · simp only [h, if_false, savePatients]

theorem deletePatient_appointments_sublist (id : Int) (st : Store) :
    (deletePatient id st).1.appointments.Sublist st.appointments := by
  unfold deletePatient
  by_cases h : (remove_if (fun p : Patient => p.id == id) st.patients).2
      = (remove_if (fun p : Patient => p.id == id) st.patients).1.length
  · simp only [h, if_true]
    exact List.Sublist.refl _
  · simp only [h, if_false, savePatients]
    by_cases h2 : (remove_if (fun a : Appointment => a.patient_id == id) st.appointments).2
        = (remove_if (fun a : Appointment => a.patient_id == id) st.appointments).1.length
    · simp only [h2, ne_eq, not_true_eq_false, if_false]
      rw [remove_if_fst_of_end _ _ ((remove_if_end_iff _ _).mp h2)]
    · simp only [h2, ne_eq, not_false_eq_true, if_true, saveAppointments]
      rw [remove_if_erase]
      exact List.filter_sublist _

theorem deleteAppointment_appointments (id : Int) (st : Store) :
    (deleteAppointment id st).1.appointments
      = st.appointments.filter (fun a => !(a.id == id)) := by
  rw [← remove_if_result]
  unfold deleteAppointment
  by_cases h : (remove_if (fun a : Appointment => a.id == id) st.appointments).2
      = (remove_if (fun a : Appointment => a.id == id) st.appointments).1.length
  · simp only [h, if_true]
  · simp only [h, if_false, saveAppointments]

theorem deleteAppointment_patients (id : Int) (st : Store) :
    (deleteAppointment id st).1.patients = st.patients := by
  unfold deleteAppointment
  by_cases h : (remove_if (fun a : Appointment => a.id == id) st.appointments).2
      = (remove_if (fun a : Appointment => a.id == id) st.appointments).1.length
  · simp only [h, if_true]
  · simp only [h, if_false, saveAppointments]

theorem editPatient_ok_ids (id : Int) (name age gender contact notes : Str)
    (st st' : Store) (o : Outcome)
    (h : editPatient id name age gender contact notes st = .ok (st', o)) :
    st'.patients.map (fun p => p.id) = st.patients.map (fun p => p.id) ∧
    st'.appointments = st.appointments := by
  unfold editPatient at h
  split at h
  · simp only [Except.ok.injEq, Prod.mk.injEq] at h
    rw [← h.1]; exact ⟨rfl, rfl⟩
  · rename_i i hi
    split at h
    · simp only [Except.ok.injEq, Prod.mk.injEq] at h
      rw [← h.1]; exact ⟨rfl, rfl⟩
    · rename_i p hp
      split at h
      · exact absurd h (by simp)
      · simp only [Except.ok.injEq, Prod.mk.injEq, savePatients] at h
        rw [← h.1]
        exact ⟨map_set_of_get? (fun p : Patient => p.id) st.patients i p _ hp rfl, rfl⟩

theorem editAppointment_ids (id : Int) (doctor date time reason : Str) (st : Store) :
    (editAppointment id doctor date time reason st).1.appointments.map (fun a => a.id)
      = st.appointments.map (fun a => a.id) ∧
    (editAppointment id doctor date time reason st).1.patients = st.patients := by
  unfold editAppointment
  split
  · exact ⟨rfl, rfl⟩
  · rename_i i hi
    split
    · exact ⟨rfl, rfl⟩
    · rename_i a ha
      exact ⟨map_set_of_get? (fun a : Appointment => a.id) st.appointments i a _ ha rfl, rfl⟩

/-! ## Field codec and load/save round trips -/

/-- Claim C1, evaluated where it fails: the text backslash-`n` is encoded as
itself, since `escapeField` copies a backslash, and is decoded to a newline, so
decoding the encoding does not return the text. -/
theorem unescape_escape_backslash_n :
    escapeField ['\\', 'n'] = ['\\', 'n'] ∧
    unescapeField (escapeField ['\\', 'n']) = ['\n'] ∧
    unescapeField (escapeField ['\\', 'n']) ≠ ['\\', 'n'] := by
  decide

/-- Claim C2, evaluated where it fails: a patient whose name is `a\b` (no
control character) is saved as the line `1|a\b|30|F|555|ok` and loaded with the
name `ab`, the backslash being consumed by `splitLine`. -/
theorem load_save_backslash_name :
    savePatientsContent [samplePatient 1 "a\\b".toList] = "1|a\\b|30|F|555|ok\n".toList ∧
    loadPatients (some (savePatientsContent [samplePatient 1 "a\\b".toList]))
      = .ok [samplePatient 1 "ab".toList] ∧
    loadPatients (some (savePatientsContent [samplePatient 1 "a\\b".toList]))
      ≠ .ok [samplePatient 1 "a\\b".toList] := by
  decide

/-- Claim C3, evaluated where it fails: a patient whose notes are the two
lines `a` and `b` (no backslash) is saved with the newline encoded as
backslash-`n`; `splitLine` drops that backslash before `unescapeField` sees
it, and the notes are loaded as `anb`. Such notes arise in the program
itself: the file line ending in `a\\nb` is loaded with these notes. -/
theorem load_save_newline_notes :
    loadPatients (some "1|Ann|30|F|555|a\\\\nb\n".toList)
      = .ok [⟨1, "Ann".toList, 30, "F".toList, "555".toList, "a\nb".toList⟩] ∧
    savePatientsContent [⟨1, "Ann".toList, 30, "F".toList, "555".toList, "a\nb".toList⟩]
      = "1|Ann|30|F|555|a\\nb\n".toList ∧
    splitLine "1|Ann|30|F|555|a\\nb".toList
      = ["1".toList, "Ann".toList, "30".toList, "F".toList, "555".toList, "anb".toList] ∧
    loadPatients (some (savePatientsContent
        [⟨1, "Ann".toList, 30, "F".toList, "555".toList, "a\nb".toList⟩]))
      = .ok [⟨1, "Ann".toList, 30, "F".toList, "555".toList, "anb".toList⟩] := by
  decide

/-! ## Integrity layer -/

/-- Claim C4: when some patient has identifier `id`, `deletePatient id` leaves
exactly the patients whose id differs from `id` and exactly the appointments
whose patient reference differs from `id`, in their original order. -/
theorem deletePatient_cascade (st : Store) (id : Int)
    (h : ∃ p ∈ st.patients, p.id = id) :
    (deletePatient id st).1.patients = st.patients.filter (fun p => p.id ≠ id) ∧
    (deletePatient id st).1.appointments
      = st.appointments.filter (fun a => a.patient_id ≠ id) ∧
    (deletePatient id st).2 = .done := by
  have hne : ¬ (remove_if (fun p : Patient => p.id == id) st.patients).2
      = (remove_if (fun p : Patient => p.id == id) st.patients).1.length := by
    rw [remove_if_end_iff]
    intro hall
    obtain ⟨p, hp, hid⟩ := h
    have := hall p hp
    simp [hid] at this
  have hfp : st.patients.filter (fun p => !(p.id == id))
      = st.patients.filter (fun p => p.id ≠ id) := by
    congr 1; funext p; by_cases hp : p.id = id <;> simp [hp]
  have hfa : st.appointments.filter (fun a => !(a.patient_id == id))
      = st.appointments.filter (fun a => a.patient_id ≠ id) := by
    congr 1; funext a; by_cases ha : a.patient_id = id <;> simp [ha]
  unfold deletePatient
  simp only [hne, if_false]
  refine ⟨?_, ?_, ?_⟩
  · simp only [savePatients]
    rw [remove_if_erase, hfp]
  · simp only [savePatients]
    by_cases h2 : (remove_if (fun a : Appointment => a.patient_id == id) st.appointments).2
        = (remove_if (fun a : Appointment => a.patient_id == id) st.appointments).1.length
    · simp only [h2, ne_eq, not_true_eq_false, if_false]
      have hall := (remove_if_end_iff _ _).mp h2
      rw [remove_if_fst_of_end _ _ hall, ← hfa]
      symm
      apply List.filter_eq_self.mpr
      intro a ha
      simp [hall a ha]
    · simp only [h2, ne_eq, not_false_eq_true, if_true, saveAppointments]
      rw [remove_if_erase, hfa]
  · trivial

/-- Witness for C4: the cascade example, patients 1 and 2 with one
appointment each, deleting patient 1. -/
theorem deletePatient_cascade_witness :
    (∃ p ∈ sampleStore.patients, p.id = 1) ∧
    (deletePatient 1 sampleStore).1.patients = [samplePatient 2 "Ann".toList] ∧
    (deletePatient 1 sampleStore).1.appointments = [sampleAppointment 2 2] :=
  ⟨⟨samplePatient 1 "Jon Doe".toList, by decide, by decide⟩,
    (deletePatient_cascade sampleStore 1
      ⟨samplePatient 1 "Jon Doe".toList, by decide, by decide⟩).1.trans (by decide),
    (deletePatient_cascade sampleStore 1
      ⟨samplePatient 1 "Jon Doe".toList, by decide, by decide⟩).2.1.trans (by decide)⟩

/-- Claim C5: when no patient has identifier `pid`, `addAppointment` is
cancelled: the whole store (both collections, both files) is returned as it
was, and the next accepted `addAppointment` appends an appointment with the
identifier it would have had without the rejected call. -/
theorem addAppointment_rejected (st : Store) (pid : Int) (doctor date time reason : Str)
    (h : ∀ p ∈ st.patients, p.id ≠ pid) :
    addAppointment pid doctor date time reason st = (st, .cancelled) ∧
    nextAppointmentId (addAppointment pid doctor date time reason st).1.appointments
      = nextAppointmentId st.appointments ∧
    ∀ (pid2 : Int) (d2 dt2 t2 r2 : Str), (∃ p ∈ st.patients, p.id = pid2) →
      (addAppointment pid2 d2 dt2 t2 r2
          (addAppointment pid doctor date time reason st).1).1.appointments
        = st.appointments ++
          [⟨nextAppointmentId st.appointments, pid2, d2, dt2, t2, r2⟩] := by
  have hrej : addAppointment pid doctor date time reason st = (st, .cancelled) := by
    have hany : st.patients.any (fun p => p.id == pid) = false := by
      rw [List.any_eq_false]
      intro p hp
      simpa using h p hp
    simp [addAppointment, hany]
  refine ⟨hrej, by rw [hrej], ?_⟩
  intro pid2 d2 dt2 t2 r2 hex
  rw [hrej]
  have hany : st.patients.any (fun p => p.id == pid2) = true := by
    rw [List.any_eq_true]
    obtain ⟨p, hp, hid⟩ := hex
    exact ⟨p, hp, by simp [hid]⟩
  simp [addAppointment, hany, saveAppointments]

/-- Witness for C5: patient reference 99 in the store with patients 1 and 2. -/
theorem addAppointment_rejected_witness :
    (∀ p ∈ sampleStore.patients, p.id ≠ 99) ∧
    addAppointment 99 [] [] [] [] sampleStore = (sampleStore, .cancelled) :=
  ⟨by decide, (addAppointment_rejected sampleStore 99 [] [] [] [] (by decide)).1⟩

/-! ## Identifier assignment -/

/-- Claim C6, where it fails: for the positive identifiers 1 and 2147483647
(the largest `int`) `nextPatientId` and `nextAppointmentId` return
-2147483648, which is not one more than the maximum identifier present. -/
theorem nextId_wraps_at_int_max :
    (∀ p ∈ samplePatientsMaxInt, 0 < p.id) ∧
    nextPatientId samplePatientsMaxInt = -2147483648 ∧
    nextPatientId samplePatientsMaxInt ≠ 2147483647 + 1 ∧
    (∀ a ∈ sampleAppointmentsMaxInt, 0 < a.id) ∧
    nextAppointmentId sampleAppointmentsMaxInt = -2147483648 ∧
    nextAppointmentId sampleAppointmentsMaxInt ≠ 2147483647 + 1 := by
  decide

/-- Claim C6 as amended: on the empty sequence `nextPatientId` and
`nextAppointmentId` return 1; on a non-empty sequence of positive identifiers
below 2147483647 they return one more than the maximum identifier present. -/
theorem nextId_max_plus_one (ps : List Patient) (as : List Appointment)
    (hp : ∀ p ∈ ps, 0 < p.id ∧ p.id < 2147483647)
    (ha : ∀ a ∈ as, 0 < a.id ∧ a.id < 2147483647) :
    nextPatientId [] = 1 ∧ nextAppointmentId [] = 1 ∧
    (ps ≠ [] → ∃ p ∈ ps, (∀ q ∈ ps, q.id ≤ p.id) ∧ nextPatientId ps = p.id + 1) ∧
    (as ≠ [] → ∃ a ∈ as, (∀ b ∈ as, b.id ≤ a.id) ∧ nextAppointmentId as = a.id + 1) := by
  refine ⟨by decide, by decide, ?_, ?_⟩
  · intro hne
    obtain ⟨h0, hub, hmem⟩ := foldl_max_spec (fun p : Patient => p.id) ps 0
    have hw := nextId_eq_of_below_max (fun p : Patient => p.id) ps (fun p hq => (hp p hq).2)
    rcases hmem with h | ⟨p, hpm, hpe⟩
    · obtain ⟨q, hq⟩ := List.exists_mem_of_ne_nil ps hne
      have h1 := hub q hq
      have h2 := (hp q hq).1
      omega
    · refine ⟨p, hpm, ?_, ?_⟩
      · intro q hq
        rw [hpe]
        exact hub q hq
      · simp only [nextPatientId]
        rw [hw, hpe]
  · intro hne
    obtain ⟨h0, hub, hmem⟩ := foldl_max_spec (fun a : Appointment => a.id) as 0
    have hw := nextId_eq_of_below_max (fun a : Appointment => a.id) as
      (fun a hq => (ha a hq).2)
    rcases hmem with h | ⟨a, ham, hae⟩
    · obtain ⟨b, hb⟩ := List.exists_mem_of_ne_nil as hne
      have h1 := hub b hb
      have h2 := (ha b hb).1
      omega
    · refine ⟨a, ham, ?_, ?_⟩
      · intro b hb
        rw [hae]
        exact hub b hb
      · simp only [nextAppointmentId]
        rw [hw, hae]

/-- Witness for the amended C6: the identifiers 3, 7, 1 are positive and below
2147483647, and give 8. -/
theorem nextId_max_plus_one_witness :
    (∀ p ∈ samplePatients371, 0 < p.id ∧ p.id < 2147483647) ∧
    (∀ a ∈ sampleAppointments371, 0 < a.id ∧ a.id < 2147483647) ∧
    (∃ p ∈ samplePatients371, (∀ q ∈ samplePatients371, q.id ≤ p.id) ∧
      nextPatientId samplePatients371 = p.id + 1) ∧
    nextPatientId samplePatients371 = 8 ∧ nextAppointmentId sampleAppointments371 = 8 :=
  ⟨by decide, by decide,
    (nextId_max_plus_one samplePatients371 sampleAppointments371
      (by decide) (by decide)).2.2.1 (by decide),
    by decide, by decide⟩

/-- Claim C7, where it fails: the store loaded from a patients file with the
identifiers -2147483648 and 2147483647 has distinct identifiers, `nextPatientId`
returns -2147483648, which a patient holds, and after `addPatient` two patients
share it. Starting from the positive identifiers 1 and 2147483647, two
successive `addPatient` give two patients the identifier -2147483648. -/
theorem add_at_int_max_repeats_id :
    loadPatients (some sampleExtremeIdsPatientsFile) = .ok sampleStoreExtremeIds.patients ∧
    (sampleStoreExtremeIds.patients.map (fun p => p.id)).Nodup ∧
    nextPatientId sampleStoreExtremeIds.patients
      ∈ sampleStoreExtremeIds.patients.map (fun p => p.id) ∧
    (addPatient "C".toList 30 [] [] [] sampleStoreExtremeIds).1.patients.map (fun p => p.id)
      = [-2147483648, 2147483647, -2147483648] ∧
    ¬ ((addPatient "C".toList 30 [] [] [] sampleStoreExtremeIds).1.patients.map
        (fun p => p.id)).Nodup ∧
    (sampleStoreMaxInt.patients.map (fun p => p.id)).Nodup ∧
    (addPatient "D".toList 30 [] [] []
        (addPatient "C".toList 30 [] [] [] sampleStoreMaxInt).1).1.patients.map (fun p => p.id)
      = [1, 2147483647, -2147483648, -2147483648] := by
  decide

/-- Claim C7 as amended: for a collection whose identifiers are all below
2147483647, `nextPatientId` and `nextAppointmentId` return an identifier that
no record holds; every edit and delete that completes, and every add on a
collection whose identifiers are all below 2147483647, keeps the identifiers
of each collection pairwise distinct. -/
theorem ids_stay_distinct (op : Op) (st st' : Store) (o : Outcome)
    (hstep : step op st = .ok (st', o))
    (hrp : ∀ name age gender contact notes, op = .addPatient name age gender contact notes →
      ∀ p ∈ st.patients, p.id < 2147483647)
    (hra : ∀ pid doctor date time reason, op = .addAppointment pid doctor date time reason →
      ∀ a ∈ st.appointments, a.id < 2147483647) :
    ((∀ p ∈ st.patients, p.id < 2147483647) →
      nextPatientId st.patients ∉ st.patients.map (fun p => p.id)) ∧
    ((∀ a ∈ st.appointments, a.id < 2147483647) →
      nextAppointmentId st.appointments ∉ st.appointments.map (fun a => a.id)) ∧
    ((st.patients.map (fun p => p.id)).Nodup → (st'.patients.map (fun p => p.id)).Nodup) ∧
    ((st.appointments.map (fun a => a.id)).Nodup →
      (st'.appointments.map (fun a => a.id)).Nodup) := by
  refine ⟨nextPatientId_fresh _, nextAppointmentId_fresh _, ?_, ?_⟩
  · intro hnd
    cases op with
    | addPatient name age gender contact notes =>
      have hr := hrp name age gender contact notes rfl
      simp only [step, addPatient, savePatients, Except.ok.injEq, Prod.mk.injEq] at hstep
      rw [← hstep.1]
      simp only [List.map_append, List.map_cons, List.map_nil]
      exact List.Nodup.append hnd (List.nodup_singleton _)
        (List.disjoint_singleton.mpr (nextPatientId_fresh _ hr))
    | editPatient id name age gender contact notes =>
      simp only [step] at hstep
      rw [(editPatient_ok_ids _ _ _ _ _ _ _ _ _ hstep).1]
      exact hnd
    | deletePatient id =>
      simp only [step, Except.ok.injEq] at hstep
      have h := deletePatient_patients id st
      rw [hstep] at h
      rw [h]
      exact hnd.sublist ((List.filter_sublist _).map _)
    | addAppointment pid doctor date time reason =>
      simp only [step, addAppointment, Except.ok.injEq] at hstep
      split at hstep
      · simp only [Prod.mk.injEq] at hstep
        rw [← hstep.1]; exact hnd
      · simp only [saveAppointments, Prod.mk.injEq] at hstep
        rw [← hstep.1]; exact hnd
    | editAppointment id doctor date time reason =>
      simp only [step, Except.ok.injEq] at hstep
      have h := (editAppointment_ids id doctor date time reason st).2
      rw [hstep] at h
      rw [h]; exact hnd
    | deleteAppointment id =>
      simp only [step, Except.ok.injEq] at hstep
      have h := deleteAppointment_patients id st
      rw [hstep] at h
      rw [h]; exact hnd
  · intro hnd
    cases op with
    | addPatient name age gender contact notes =>
      simp only [step, addPatient, savePatients, Except.ok.injEq, Prod.mk.injEq] at hstep
      rw [← hstep.1]; exact hnd
    | editPatient id name age gender contact notes =>
      simp only [step] at hstep
      rw [(editPatient_ok_ids _ _ _ _ _ _ _ _ _ hstep).2]
      exact hnd
    | deletePatient id =>
      simp only [step, Except.ok.injEq] at hstep
      have h := deletePatient_appointments_sublist id st
      rw [hstep] at h
      exact hnd.sublist (h.map _)
    | addAppointment pid doctor date time reason =>
      have hr := hra pid doctor date time reason rfl
      simp only [step, addAppointment, Except.ok.injEq] at hstep
      split at hstep
      · simp only [Prod.mk.injEq] at hstep
        rw [← hstep.1]; exact hnd
      · simp only [saveAppointments, Prod.mk.injEq] at hstep
        rw [← hstep.1]
        simp only [List.map_append, List.map_cons, List.map_nil]
        exact List.Nodup.append hnd (List.nodup_singleton _)
          (List.disjoint_singleton.mpr (nextAppointmentId_fresh _ hr))
    | editAppointment id doctor date time reason =>
      simp only [step, Except.ok.injEq] at hstep
      have h := (editAppointment_ids id doctor date time reason st).1
      rw [hstep] at h
      rw [h]; exact hnd
    | deleteAppointment id =>
      simp only [step, Except.ok.injEq] at hstep
      have h := deleteAppointment_appointments id st
      rw [hstep] at h
      rw [h]
      exact hnd.sublist ((List.filter_sublist _).map _)

/-- Witness for the amended C7: in the sample store, whose identifiers are 1
and 2, adding an appointment for patient 1 and adding a patient both complete
and keep the identifiers distinct. -/
theorem ids_stay_distinct_witness :
    (∀ p ∈ sampleStore.patients, p.id < 2147483647) ∧
    (∀ a ∈ sampleStore.appointments, a.id < 2147483647) ∧
    (sampleStore.appointments.map (fun a => a.id)).Nodup ∧
    ((addAppointment 1 [] [] [] [] sampleStore).1.appointments.map (fun a => a.id)).Nodup ∧
    (addAppointment 1 [] [] [] [] sampleStore).1.appointments.map (fun a => a.id)
      = [1, 2, 3] ∧
    (sampleStore.patients.map (fun p => p.id)).Nodup ∧
    ((addPatient [] 0 [] [] [] sampleStore).1.patients.map (fun p => p.id)).Nodup :=
  ⟨by decide, by decide, by decide,
    (ids_stay_distinct (.addAppointment 1 [] [] [] []) sampleStore
      (addAppointment 1 [] [] [] [] sampleStore).1
      (addAppointment 1 [] [] [] [] sampleStore).2 rfl
      (fun _ _ _ _ _ h => Op.noConfusion h)
      (fun _ _ _ _ _ _ => by decide)).2.2.2 (by decide),
    by decide, by decide,
    (ids_stay_distinct (.addPatient [] 0 [] [] []) sampleStore
      (addPatient [] 0 [] [] [] sampleStore).1
      (addPatient [] 0 [] [] [] sampleStore).2 rfl
      (fun _ _ _ _ _ _ => by decide)
      (fun _ _ _ _ _ h => Op.noConfusion h)).2.2.1 (by decide)⟩

/-! ## Load -/

theorem exists_ok_of_isOk {ε α : Type} (r : Except ε α) (h : r.isOk = true) :
    ∃ a, r = .ok a := by
  cases r with
  | error e => exact absurd h (by simp [Except.isOk, Except.toBool])
  | ok a => exact ⟨a, rfl⟩

theorem loadPatientsLoop_ok (lines : List Str) (v : List Patient)
    (h : ∀ line ∈ lines, line ≠ [] → 6 ≤ (splitLine line).length →
      (stoi (unescapeField ((splitLine line).getD 0 []))).isOk = true ∧
      (stoi (unescapeField ((splitLine line).getD 2 []))).isOk = true) :
    ∃ recs, loadPatientsLoop lines v = .ok (v ++ recs) ∧
      List.Forall₂
        (fun line p =>
          stoi (unescapeField ((splitLine line).getD 0 [])) = .ok p.id ∧
          stoi (unescapeField ((splitLine line).getD 2 [])) = .ok p.age ∧
          p = patientOfFields (splitLine line) p.id p.age)
        (lines.filter (fun line => decide (line ≠ [] ∧ 6 ≤ (splitLine line).length))) recs := by
  induction lines generalizing v with
  | nil => exact ⟨[], by simp [loadPatientsLoop], by simp⟩
  | cons line rest ih =>
    have hrest : ∀ l ∈ rest, l ≠ [] → 6 ≤ (splitLine l).length →
        (stoi (unescapeField ((splitLine l).getD 0 []))).isOk = true ∧
        (stoi (unescapeField ((splitLine l).getD 2 []))).isOk = true :=
      fun l hl => h l (List.mem_cons_of_mem _ hl)
    by_cases h1 : line = []
    · obtain ⟨recs, hr, hf⟩ := ih v hrest
      refine ⟨recs, ?_, ?_⟩
      · rw [loadPatientsLoop, if_pos h1, hr]
      · simpa [List.filter_cons, h1] using hf
    · by_cases h2 : (splitLine line).length < 6
      · obtain ⟨recs, hr, hf⟩ := ih v hrest
        refine ⟨recs, ?_, ?_⟩
        · rw [loadPatientsLoop, if_neg h1]
          simp only [h2, if_true]
          exact hr
        · have h3 : ¬ 6 ≤ (splitLine line).length := by omega
          simpa [List.filter_cons, h1, h3] using hf
      · have h3 : 6 ≤ (splitLine line).length := by omega
        obtain ⟨hi, ha⟩ := h line (List.mem_cons_self _ _) h1 h3
        obtain ⟨i, hi⟩ := exists_ok_of_isOk _ hi
        obtain ⟨a, ha⟩ := exists_ok_of_isOk _ ha
        obtain ⟨recs, hr, hf⟩ := ih (v ++ [patientOfFields (splitLine line) i a]) hrest
        refine ⟨patientOfFields (splitLine line) i a :: recs, ?_, ?_⟩
        · rw [loadPatientsLoop, if_neg h1]
          simp only [h2, if_false, hi, ha]
          rw [hr, List.append_assoc, List.singleton_append]
        · have hd : decide (line ≠ [] ∧ 6 ≤ (splitLine line).length) = true := by
            simp [h1, h3]
          rw [List.filter_cons, if_pos hd]
          exact List.Forall₂.cons ⟨hi, ha, rfl⟩ hf

theorem loadAppointmentsLoop_ok (lines : List Str) (v : List Appointment)
    (h : ∀ line ∈ lines, line ≠ [] → 6 ≤ (splitLine line).length →
      (stoi (unescapeField ((splitLine line).getD 0 []))).isOk = true ∧
      (stoi (unescapeField ((splitLine line).getD 1 []))).isOk = true) :
    ∃ recs, loadAppointmentsLoop lines v = .ok (v ++ recs) ∧
      List.Forall₂
        (fun line a =>
          stoi (unescapeField ((splitLine line).getD 0 [])) = .ok a.id ∧
          stoi (unescapeField ((splitLine line).getD 1 [])) = .ok a.patient_id ∧
          a = appointmentOfFields (splitLine line) a.id a.patient_id)
        (lines.filter (fun line => decide (line ≠ [] ∧ 6 ≤ (splitLine line).length))) recs := by
  induction lines generalizing v with
  | nil => exact ⟨[], by simp [loadAppointmentsLoop], by simp⟩
  | cons line rest ih =>
    have hrest : ∀ l ∈ rest, l ≠ [] → 6 ≤ (splitLine l).length →
        (stoi (unescapeField ((splitLine l).getD 0 []))).isOk = true ∧
        (stoi (unescapeField ((splitLine l).getD 1 []))).isOk = true :=
      fun l hl => h l (List.mem_cons_of_mem _ hl)
    by_cases h1 : line = []
    · obtain ⟨recs, hr, hf⟩ := ih v hrest
      refine ⟨recs, ?_, ?_⟩
      · rw [loadAppointmentsLoop, if_pos h1, hr]
      · simpa [List.filter_cons, h1] using hf
    · by_cases h2 : (splitLine line).length < 6
      · obtain ⟨recs, hr, hf⟩ := ih v hrest
        refine ⟨recs, ?_, ?_⟩
        · rw [loadAppointmentsLoop, if_neg h1]
          simp only [h2, if_true]
          exact hr
        · have h3 : ¬ 6 ≤ (splitLine line).length := by omega
          simpa [List.filter_cons, h1, h3] using hf
      · have h3 : 6 ≤ (splitLine line).length := by omega
        obtain ⟨hi, hq⟩ := h line (List.mem_cons_self _ _) h1 h3
        obtain ⟨i, hi⟩ := exists_ok_of_isOk _ hi
        obtain ⟨q, hq⟩ := exists_ok_of_isOk _ hq
        obtain ⟨recs, hr, hf⟩ := ih (v ++ [appointmentOfFields (splitLine line) i q]) hrest
        refine ⟨appointmentOfFields (splitLine line) i q :: recs, ?_, ?_⟩
        · rw [loadAppointmentsLoop, if_neg h1]
          simp only [h2, if_false, hi, hq]
          rw [hr, List.append_assoc, List.singleton_append]
        · have hd : decide (line ≠ [] ∧ 6 ≤ (splitLine line).length) = true := by
            simp [h1, h3]
          rw [List.filter_cons, if_pos hd]
          exact List.Forall₂.cons ⟨hi, hq, rfl⟩ hf

/-- Claim C8, evaluated where it fails: a patients file whose first line has
six fields and the identifier `x`, and an appointments file whose first line
has the patient reference `abc`, do not load: `stoi` throws
`invalid_argument`, nothing catches it, and no collection is returned, the
well-formed second line notwithstanding. -/
theorem load_unparsable_integer_throws :
    (splitLine "x|Bob|30|M|555|none".toList).length = 6 ∧
    loadPatients (some sampleBadIdPatientsFile) = .error .invalid_argument ∧
    loadAppointments (some sampleBadRefAppointmentsFile) = .error .invalid_argument := by
  decide

/-- Claim C9: when the integer fields of every line with at least 6 fields
parse, loading returns exactly one record per non-empty line that `splitLine`
divides into at least 6 fields, in file order, built from the fields of that
line; empty lines and shorter lines contribute nothing and raise no error. -/
theorem load_one_record_per_wellformed_line (cp ca : Str)
    (hp : ∀ line ∈ getlines cp, line ≠ [] → 6 ≤ (splitLine line).length →
      (stoi (unescapeField ((splitLine line).getD 0 []))).isOk = true ∧
      (stoi (unescapeField ((splitLine line).getD 2 []))).isOk = true)
    (ha : ∀ line ∈ getlines ca, line ≠ [] → 6 ≤ (splitLine line).length →
      (stoi (unescapeField ((splitLine line).getD 0 []))).isOk = true ∧
      (stoi (unescapeField ((splitLine line).getD 1 []))).isOk = true) :
    (∃ ps, loadPatients (some cp) = .ok ps ∧
      List.Forall₂
        (fun line p =>
          stoi (unescapeField ((splitLine line).getD 0 [])) = .ok p.id ∧
          stoi (unescapeField ((splitLine line).getD 2 [])) = .ok p.age ∧
          p = patientOfFields (splitLine line) p.id p.age)
        ((getlines cp).filter
          (fun line => decide (line ≠ [] ∧ 6 ≤ (splitLine line).length))) ps) ∧
    (∃ as, loadAppointments (some ca) = .ok as ∧
      List.Forall₂
        (fun line a =>
          stoi (unescapeField ((splitLine line).getD 0 [])) = .ok a.id ∧
          stoi (unescapeField ((splitLine line).getD 1 [])) = .ok a.patient_id ∧
          a = appointmentOfFields (splitLine line) a.id a.patient_id)
        ((getlines ca).filter
          (fun line => decide (line ≠ [] ∧ 6 ≤ (splitLine line).length))) as) := by
  constructor
  · obtain ⟨recs, hr, hf⟩ := loadPatientsLoop_ok (getlines cp) [] hp
    exact ⟨recs, by simpa [loadPatients] using hr, hf⟩
  · obtain ⟨recs, hr, hf⟩ := loadAppointmentsLoop_ok (getlines ca) [] ha
    exact ⟨recs, by simpa [loadAppointments] using hr, hf⟩

/-- Witness for C9: a patients file with a well-formed line, an empty line and
a three-field line loads exactly the well-formed record; likewise for an
appointments file whose three-field line comes first. -/
theorem load_one_record_per_wellformed_line_witness :
    ((∃ ps, loadPatients (some sampleMixedPatientsFile) = .ok ps ∧
      List.Forall₂
        (fun line p =>
          stoi (unescapeField ((splitLine line).getD 0 [])) = .ok p.id ∧
          stoi (unescapeField ((splitLine line).getD 2 [])) = .ok p.age ∧
          p = patientOfFields (splitLine line) p.id p.age)
        ((getlines sampleMixedPatientsFile).filter
          (fun line => decide (line ≠ [] ∧ 6 ≤ (splitLine line).length))) ps) ∧
    (∃ as, loadAppointments (some sampleMixedAppointmentsFile) = .ok as ∧
      List.Forall₂
        (fun line a =>
          stoi (unescapeField ((splitLine line).getD 0 [])) = .ok a.id ∧
          stoi (unescapeField ((splitLine line).getD 1 [])) = .ok a.patient_id ∧
          a = appointmentOfFields (splitLine line) a.id a.patient_id)
        ((getlines sampleMixedAppointmentsFile).filter
          (fun line => decide (line ≠ [] ∧ 6 ≤ (splitLine line).length))) as)) ∧
    getlines sampleMixedPatientsFile
      = ["1|Jon Doe|30|M|555|ok".toList, [], "2|x|y".toList] ∧
    loadPatients (some sampleMixedPatientsFile)
      = .ok [⟨1, "Jon Doe".toList, 30, "M".toList, "555".toList, "ok".toList⟩] ∧
    loadAppointments (some sampleMixedAppointmentsFile) = .ok [sampleAppointment 4 1] :=
  ⟨load_one_record_per_wellformed_line sampleMixedPatientsFile sampleMixedAppointmentsFile
      (by decide) (by decide),
    by decide, by decide, by decide⟩

/-! ## Search -/

theorem find_isSome_iff (hay needle : Str) :
    (find hay needle).isSome = true ↔ needle <:+: hay := by
  induction hay with
  | nil =>
    by_cases h : needle = []
    · simp [find, h]
    · simp [find, h]
  | cons c hay ih =>
    rw [find, List.infix_cons_iff]
    by_cases h : needle.isPrefixOf (c :: hay) = true
    · rw [if_pos h]
      simp only [Option.isSome_some, true_iff]
      exact Or.inl (List.isPrefixOf_iff_prefix.mp h)
    · rw [if_neg h, Option.isSome_map', ih]
      constructor
      · intro hi; exact Or.inr hi
      · rintro (hp | hi)
        · exact absurd (List.isPrefixOf_iff_prefix.mpr hp) h
        · exact hi

theorem foldl_select_eq {α : Type} (cond : α → Bool) (v acc : List α) :
    v.foldl (fun res x => if cond x = true then res ++ [x] else res) acc
      = acc ++ v.filter cond := by
  induction v generalizing acc with
  | nil => simp
  | cons x xs ih =>
    simp only [List.foldl_cons, ih, List.filter_cons]
    cases h : cond x <;> simp

/-- Claim C10: `searchPatientsByName` returns, in collection order, exactly
the patients whose lower-cased name contains the lower-cased term as a
contiguous substring; the empty term returns every patient; the term `jon`
finds `Jon Doe` and not `Ann`. -/
theorem searchPatientsByName_spec (patients : List Patient) (term : Str) :
    searchPatientsByName patients term
      = patients.filter (fun p => decide (lower term <:+: lower p.name)) ∧
    searchPatientsByName patients [] = patients ∧
    searchPatientsByName sampleStore.patients "jon".toList
      = [samplePatient 1 "Jon Doe".toList] := by
  have hgen : ∀ t : Str, searchPatientsByName patients t
      = patients.filter (fun p => decide (lower t <:+: lower p.name)) := by
    intro t
    unfold searchPatientsByName
    simp only []
    rw [foldl_select_eq, List.nil_append]
    congr 1
    funext p
    by_cases h : lower t <:+: lower p.name
    · simp [h, (find_isSome_iff _ _).mpr h]
    · have h2 : ¬ (find (lower p.name) (lower t)).isSome = true :=
        fun hs => h ((find_isSome_iff _ _).mp hs)
      simp only [h, decide_False]
      simpa using h2
  refine ⟨hgen term, ?_, by decide⟩
  rw [hgen]
  apply List.filter_eq_self.mpr
  intro p _
  simp [lower]

/-! ## Decoding rules -/

theorem unescapeField_cons_of_ne (c : Char) (r : Str) (hc : c ≠ '\\') :
    unescapeField (c :: r) = c :: unescapeField r := by
  cases r with
  | nil => simp [unescapeField]
  | cons d r => simp [unescapeField, hc]

theorem unescapeField_of_no_backslash (x : Str) (h : '\\' ∉ x) : unescapeField x = x := by
  induction x with
  | nil => rfl
  | cons c r ih =>
    have hc : c ≠ '\\' := fun hc => h (by simp [hc])
    have hr : '\\' ∉ r := fun hr => h (List.mem_cons_of_mem _ hr)
    rw [unescapeField_cons_of_ne c r hc, ih hr]

theorem unescape_escape_of_no_backslash (x : Str) (h : '\\' ∉ x) :
    unescapeField (escapeField x) = x := by
  induction x with
  | nil => rfl
  | cons c r ih =>
    have hc : c ≠ '\\' := fun hc => h (by simp [hc])
    have hr : '\\' ∉ r := fun hr => h (List.mem_cons_of_mem _ hr)
    by_cases h1 : c = '|'
    · subst h1
      simp [escapeField, unescapeField, ih hr]
    · by_cases h2 : c = '\n'
      · subst h2
        simp [escapeField, unescapeField, ih hr]
      · rw [escapeField, if_neg h1, if_neg h2, unescapeField_cons_of_ne c _ hc, ih hr]

/-- Claim C13, where it fails: a backslash followed by a character other than
`|` and `n` is kept (`a\b` decodes to `a\b`, not to `ab`), and a trailing
backslash is kept as well (`a\` decodes to `a\`, not to `a`). -/
theorem unescapeField_keeps_other_backslash :
    unescapeField "a\\b".toList = "a\\b".toList ∧
    unescapeField "a\\b".toList ≠ "ab".toList ∧
    unescapeField "a\\".toList = "a\\".toList ∧
    unescapeField "a\\".toList ≠ "a".toList := by
  decide

/-- Claim C13 as amended: backslash-pipe decodes to a pipe and backslash-`n`
to a newline; a backslash followed by any other character is copied, the
backslash kept, and decoding goes on at that character; a trailing backslash
is copied; every other character is copied unchanged. -/
theorem unescapeField_rules (c d : Char) (r : Str) :
    unescapeField ('\\' :: '|' :: r) = '|' :: unescapeField r ∧
    unescapeField ('\\' :: 'n' :: r) = '\n' :: unescapeField r ∧
    (d ≠ '|' → d ≠ 'n' → unescapeField ('\\' :: d :: r) = '\\' :: unescapeField (d :: r)) ∧
    unescapeField ['\\'] = ['\\'] ∧
    (c ≠ '\\' → unescapeField (c :: r) = c :: unescapeField r) ∧
    unescapeField [] = [] := by
  refine ⟨by simp [unescapeField], by simp [unescapeField], ?_, rfl,
    unescapeField_cons_of_ne c r, rfl⟩
  intro h1 h2
  simp [unescapeField, h1, h2]

/-- Witness for the amended C13: backslash-`b` keeps its backslash, and the
plain character `a` is copied. -/
theorem unescapeField_rules_witness :
    unescapeField ('\\' :: 'b' :: "c".toList) = '\\' :: unescapeField ('b' :: "c".toList) ∧
    unescapeField ('a' :: "c".toList) = 'a' :: unescapeField "c".toList :=
  ⟨(unescapeField_rules 'a' 'b' "c".toList).2.2.1 (by decide) (by decide),
    (unescapeField_rules 'a' 'b' "c".toList).2.2.2.2.1 (by decide)⟩

/-- Claim C14: a text made of pipes, newlines and characters other than the
backslash is returned unchanged by `escapeField` followed by `unescapeField`. -/
theorem escape_roundtrip_without_backslash (x : Str) (h : '\\' ∉ x) :
    unescapeField (escapeField x) = x :=
  unescape_escape_of_no_backslash x h

/-- Witness for C14: the text `a|b`, newline, `c`. -/
theorem escape_roundtrip_without_backslash_witness :
    '\\' ∉ "a|b\nc".toList ∧
    escapeField "a|b\nc".toList = "a\\|b\\nc".toList ∧
    unescapeField (escapeField "a|b\nc".toList) = "a|b\nc".toList :=
  ⟨by decide, by decide, escape_roundtrip_without_backslash "a|b\nc".toList (by decide)⟩

/-! ## Operations on an identifier that is absent or present -/

theorem findPatientById_none (v : List Patient) (id : Int) (h : ∀ p ∈ v, p.id ≠ id) :
    findPatientById v id = none := by
  induction v with
  | nil => rfl
  | cons p rest ih =>
    have hp : p.id ≠ id := h p (List.mem_cons_self _ _)
    have hr := ih (fun q hq => h q (List.mem_cons_of_mem _ hq))
    simp [findPatientById, hp, hr]

theorem findAppointmentById_none (v : List Appointment) (id : Int)
    (h : ∀ a ∈ v, a.id ≠ id) : findAppointmentById v id = none := by
  induction v with
  | nil => rfl
  | cons a rest ih =>
    have ha : a.id ≠ id := h a (List.mem_cons_self _ _)
    have hr := ih (fun q hq => h q (List.mem_cons_of_mem _ hq))
    simp [findAppointmentById, ha, hr]

theorem remove_if_eq_of_absent {α : Type} (pred : α → Bool) (v : List α)
    (h : ∀ x ∈ v, pred x = false) :
    (remove_if pred v).2 = (remove_if pred v).1.length ∧ (remove_if pred v).1 = v :=
  ⟨(remove_if_end_iff pred v).mpr h, remove_if_fst_of_end pred v h⟩

theorem deletePatient_of_absent (id : Int) (st : Store) (h : ∀ p ∈ st.patients, p.id ≠ id) :
    deletePatient id st = (st, .notFound) := by
  have hall : ∀ p ∈ st.patients, (fun p : Patient => p.id == id) p = false := by
    intro p hp
    simpa using h p hp
  obtain ⟨h1, h2⟩ := remove_if_eq_of_absent _ _ hall
  unfold deletePatient
  simp only [h1, if_true, h2]

theorem deleteAppointment_of_absent (id : Int) (st : Store)
    (h : ∀ a ∈ st.appointments, a.id ≠ id) :
    deleteAppointment id st = (st, .notFound) := by
  have hall : ∀ a ∈ st.appointments, (fun a : Appointment => a.id == id) a = false := by
    intro a ha
    simpa using h a ha
  obtain ⟨h1, h2⟩ := remove_if_eq_of_absent _ _ hall
  unfold deleteAppointment
  simp only [h1, if_true, h2]

theorem deletePatient_not_absent (id : Int) (st : Store)
    (h : ¬ ∀ p ∈ st.patients, p.id ≠ id) :
    (deletePatient id st).1.patients = st.patients.filter (fun p => !(p.id == id)) ∧
    (deletePatient id st).1.patientsFile
      = some (savePatientsContent (st.patients.filter (fun p => !(p.id == id)))) ∧
    (deletePatient id st).1.appointments
      = st.appointments.filter (fun a => !(a.patient_id == id)) ∧
    (deletePatient id st).1.appointmentsFile
      = (if st.appointments.any (fun a => a.patient_id == id)
          then some (saveAppointmentsContent
            (st.appointments.filter (fun a => !(a.patient_id == id))))
          else st.appointmentsFile) := by
  have hne : ¬ (remove_if (fun p : Patient => p.id == id) st.patients).2
      = (remove_if (fun p : Patient => p.id == id) st.patients).1.length := by
    rw [remove_if_end_iff]
    intro hall
    apply h
    intro p hp
    simpa using hall p hp
  unfold deletePatient
  simp only [hne, if_false, savePatients]
  refine ⟨remove_if_erase _ _, by rw [remove_if_erase], ?_, ?_⟩
  · by_cases h2 : (remove_if (fun a : Appointment => a.patient_id == id) st.appointments).2
        = (remove_if (fun a : Appointment => a.patient_id == id) st.appointments).1.length
    · simp only [h2, ne_eq, not_true_eq_false, if_false]
      have hall := (remove_if_end_iff _ _).mp h2
      rw [remove_if_fst_of_end _ _ hall]
      symm
      apply List.filter_eq_self.mpr
      intro a ha
      simp [hall a ha]
    · simp only [h2, ne_eq, not_false_eq_true, if_true, saveAppointments]
      rw [remove_if_erase]
  · by_cases h2 : (remove_if (fun a : Appointment => a.patient_id == id) st.appointments).2
        = (remove_if (fun a : Appointment => a.patient_id == id) st.appointments).1.length
    · simp only [h2, ne_eq, not_true_eq_false, if_false]
      have hall := (remove_if_end_iff _ _).mp h2
      have hany : st.appointments.any (fun a => a.patient_id == id) = false := by
        rw [List.any_eq_false]
        intro a ha
        simpa using hall a ha
      rw [hany]
      simp
    · simp only [h2, ne_eq, not_false_eq_true, if_true, saveAppointments]
      have hany : st.appointments.any (fun a => a.patient_id == id) = true := by
        by_contra hc
        apply h2
        rw [remove_if_end_iff]
        have hf : st.appointments.any (fun a => a.patient_id == id) = false := by
          simpa using hc
        rw [List.any_eq_false] at hf
        intro a ha
        simpa using hf a ha
      rw [hany, remove_if_erase]
      simp

theorem deleteAppointment_cases (id : Int) (st : Store) :
    deleteAppointment id st = (st, .notFound) ∨
    ((deleteAppointment id st).1.appointmentsFile
        = some (saveAppointmentsContent (deleteAppointment id st).1.appointments) ∧
      (deleteAppointment id st).1.patients = st.patients ∧
      (deleteAppointment id st).1.patientsFile = st.patientsFile) := by
  by_cases h : ∀ a ∈ st.appointments, a.id ≠ id
  · exact Or.inl (deleteAppointment_of_absent id st h)
  · right
    have hne : ¬ (remove_if (fun a : Appointment => a.id == id) st.appointments).2
        = (remove_if (fun a : Appointment => a.id == id) st.appointments).1.length := by
      rw [remove_if_end_iff]
      intro hall
      apply h
      intro a ha
      simpa using hall a ha
    unfold deleteAppointment
    simp only [hne, if_false, saveAppointments]
    exact ⟨trivial, trivial, trivial⟩

theorem editPatient_of_absent (id : Int) (name age gender contact notes : Str) (st : Store)
    (h : ∀ p ∈ st.patients, p.id ≠ id) :
    editPatient id name age gender contact notes st = .ok (st, .notFound) := by
  simp [editPatient, findPatientById_none _ _ h]

theorem editAppointment_of_absent (id : Int) (doctor date time reason : Str) (st : Store)
    (h : ∀ a ∈ st.appointments, a.id ≠ id) :
    editAppointment id doctor date time reason st = (st, .notFound) := by
  simp [editAppointment, findAppointmentById_none _ _ h]

theorem editPatient_ok_cases (id : Int) (name age gender contact notes : Str)
    (st st' : Store) (o : Outcome)
    (h : editPatient id name age gender contact notes st = .ok (st', o)) :
    st' = st ∨
    (st'.patientsFile = some (savePatientsContent st'.patients) ∧
      st'.appointments = st.appointments ∧ st'.appointmentsFile = st.appointmentsFile) := by
  unfold editPatient at h
  split at h
  · simp only [Except.ok.injEq, Prod.mk.injEq] at h
    exact Or.inl h.1.symm
  · split at h
    · simp only [Except.ok.injEq, Prod.mk.injEq] at h
      exact Or.inl h.1.symm
    · split at h
      · exact absurd h (by simp)
      · simp only [Except.ok.injEq, Prod.mk.injEq, savePatients] at h
        right
        rw [← h.1]
        exact ⟨rfl, rfl, rfl⟩

theorem editAppointment_cases (id : Int) (doctor date time reason : Str) (st : Store) :
    (editAppointment id doctor date time reason st).1 = st ∨
    ((editAppointment id doctor date time reason st).1.appointmentsFile
        = some (saveAppointmentsContent
            (editAppointment id doctor date time reason st).1.appointments) ∧
      (editAppointment id doctor date time reason st).1.patients = st.patients ∧
      (editAppointment id doctor date time reason st).1.patientsFile = st.patientsFile ∧
      (editAppointment id doctor date time reason st).1.appointments.map
          (fun a => a.patient_id) = st.appointments.map (fun a => a.patient_id)) := by
  unfold editAppointment
  split
  · exact Or.inl rfl
  · rename_i i hi
    split
    · exact Or.inl rfl
    · rename_i a ha
      right
      exact ⟨rfl, rfl, rfl,
        map_set_of_get? (fun a : Appointment => a.patient_id) st.appointments i a _ ha rfl⟩

/-- Claim C11: an edit or delete naming an identifier that no record of the
collection holds returns the store exactly as it was (both collections, both
files) with the message "not found". -/
theorem absent_id_no_change (st : Store) (id : Int)
    (name age gender contact notes doctor date time reason : Str) :
    ((∀ p ∈ st.patients, p.id ≠ id) →
      editPatient id name age gender contact notes st = .ok (st, .notFound) ∧
      deletePatient id st = (st, .notFound)) ∧
    ((∀ a ∈ st.appointments, a.id ≠ id) →
      editAppointment id doctor date time reason st = (st, .notFound) ∧
      deleteAppointment id st = (st, .notFound)) :=
  ⟨fun h => ⟨editPatient_of_absent id name age gender contact notes st h,
      deletePatient_of_absent id st h⟩,
    fun h => ⟨editAppointment_of_absent id doctor date time reason st h,
      deleteAppointment_of_absent id st h⟩⟩

/-- Witness for C11: identifier 7 in the sample store, which holds the
identifiers 1 and 2 in both collections. -/
theorem absent_id_no_change_witness :
    (∀ p ∈ sampleStore.patients, p.id ≠ 7) ∧ (∀ a ∈ sampleStore.appointments, a.id ≠ 7) ∧
    editPatient 7 "X".toList "zz".toList [] [] [] sampleStore = .ok (sampleStore, .notFound) ∧
    deletePatient 7 sampleStore = (sampleStore, .notFound) ∧
    editAppointment 7 "D".toList [] [] [] sampleStore = (sampleStore, .notFound) ∧
    deleteAppointment 7 sampleStore = (sampleStore, .notFound) :=
  ⟨by decide, by decide,
    ((absent_id_no_change sampleStore 7 "X".toList "zz".toList [] [] [] "D".toList [] [] []).1
      (by decide)).1,
    ((absent_id_no_change sampleStore 7 "X".toList "zz".toList [] [] [] "D".toList [] [] []).1
      (by decide)).2,
    ((absent_id_no_change sampleStore 7 "X".toList "zz".toList [] [] [] "D".toList [] [] []).2
      (by decide)).1,
    ((absent_id_no_change sampleStore 7 "X".toList "zz".toList [] [] [] "D".toList [] [] []).2
      (by decide)).2⟩

/-! ## Persistence -/

/-- Claim C15: if each backing file holds the save-rendering of its
collection, then after any mutating operation that completes each backing
file again holds the save-rendering of its collection. -/
theorem files_stay_in_sync (op : Op) (st st' : Store) (o : Outcome)
    (hstep : step op st = .ok (st', o))
    (hp : st.patientsFile = some (savePatientsContent st.patients))
    (ha : st.appointmentsFile = some (saveAppointmentsContent st.appointments)) :
    st'.patientsFile = some (savePatientsContent st'.patients) ∧
    st'.appointmentsFile = some (saveAppointmentsContent st'.appointments) := by
  cases op with
  | addPatient name age gender contact notes =>
    simp only [step, addPatient, savePatients, Except.ok.injEq, Prod.mk.injEq] at hstep
    rw [← hstep.1]
    exact ⟨rfl, ha⟩
  | editPatient id name age gender contact notes =>
    simp only [step] at hstep
    rcases editPatient_ok_cases _ _ _ _ _ _ _ _ _ hstep with h | ⟨h1, h2, h3⟩
    · rw [h]; exact ⟨hp, ha⟩
    · exact ⟨h1, by rw [h2, h3, ha]⟩
  | deletePatient id =>
    simp only [step, Except.ok.injEq] at hstep
    by_cases habs : ∀ p ∈ st.patients, p.id ≠ id
    · rw [deletePatient_of_absent id st habs] at hstep
      simp only [Prod.mk.injEq] at hstep
      rw [← hstep.1]; exact ⟨hp, ha⟩
    · obtain ⟨h1, h2, h3, h4⟩ := deletePatient_not_absent id st habs
      rw [hstep] at h1 h2 h3 h4
      simp only at h1 h2 h3 h4
      refine ⟨by rw [h2, h1], ?_⟩
      rw [h4, h3]
      by_cases hany : st.appointments.any (fun a => a.patient_id == id) = true
      · rw [if_pos hany]
      · rw [if_neg hany, ha]
        have hf : st.appointments.any (fun a => a.patient_id == id) = false := by
          simpa using hany
        rw [List.any_eq_false] at hf
        have hself : st.appointments.filter (fun a => !(a.patient_id == id))
            = st.appointments := by
          apply List.filter_eq_self.mpr
          intro a ha'
          simpa using hf a ha'
        rw [hself]
  | addAppointment pid doctor date time reason =>
    simp only [step, addAppointment, Except.ok.injEq] at hstep
    split at hstep
    · simp only [Prod.mk.injEq] at hstep
      rw [← hstep.1]; exact ⟨hp, ha⟩
    · simp only [saveAppointments, Prod.mk.injEq] at hstep
      rw [← hstep.1]; exact ⟨hp, rfl⟩
  | editAppointment id doctor date time reason =>
    simp only [step, Except.ok.injEq] at hstep
    have hc := editAppointment_cases id doctor date time reason st
    rw [hstep] at hc
    simp only at hc
    rcases hc with h | ⟨h1, h2, h3, _⟩
    · rw [h]; exact ⟨hp, ha⟩
    · exact ⟨by rw [h3, h2, hp], h1⟩
  | deleteAppointment id =>
    simp only [step, Except.ok.injEq] at hstep
    have hc := deleteAppointment_cases id st
    rw [hstep] at hc
    simp only [Prod.mk.injEq] at hc
    rcases hc with h | ⟨h1, h2, h3⟩
    · rw [h.1]; exact ⟨hp, ha⟩
    · exact ⟨by rw [h3, h2, hp], h1⟩

/-- Witness for C15: starting with both files in sync, deleting patient 1
(and its appointment) leaves both files in sync. -/
theorem files_stay_in_sync_witness :
    step (.deletePatient 1)
        { sampleStore with
          patientsFile := some (savePatientsContent sampleStore.patients)
          appointmentsFile := some (saveAppointmentsContent sampleStore.appointments) }
      = .ok (deletePatient 1
        { sampleStore with
          patientsFile := some (savePatientsContent sampleStore.patients)
          appointmentsFile := some (saveAppointmentsContent sampleStore.appointments) }) ∧
    (deletePatient 1
        { sampleStore with
          patientsFile := some (savePatientsContent sampleStore.patients)
          appointmentsFile := some (saveAppointmentsContent sampleStore.appointments) }
      ).1.appointmentsFile
      = some (saveAppointmentsContent (deletePatient 1
        { sampleStore with
          patientsFile := some (savePatientsContent sampleStore.patients)
          appointmentsFile := some (saveAppointmentsContent sampleStore.appointments) }
        ).1.appointments) :=
  ⟨rfl,
    (files_stay_in_sync (.deletePatient 1)
      { sampleStore with
        patientsFile := some (savePatientsContent sampleStore.patients)
        appointmentsFile := some (saveAppointmentsContent sampleStore.appointments) }
      _ _ rfl rfl rfl).2⟩

/-- Claim C16, where it fails: deleting patient 1, to whom no appointment
refers, from a store whose appointments file lacks the final line terminator
removes the patient and leaves the appointments file as it was, which is not
the save-rendering of the appointments in memory. That store is what start-up
loads from this file. -/
theorem deletePatient_skips_appointments_file :
    loadAppointments sampleStoreUnterminatedFile.appointmentsFile
      = .ok sampleStoreUnterminatedFile.appointments ∧
    (deletePatient 1 sampleStoreUnterminatedFile).2 = .done ∧
    (deletePatient 1 sampleStoreUnterminatedFile).1.patients = [samplePatient 2 "Ann".toList] ∧
    (deletePatient 1 sampleStoreUnterminatedFile).1.appointmentsFile
      = some "2|2|Dr A|2024-01-01|09:00|check".toList ∧
    (deletePatient 1 sampleStoreUnterminatedFile).1.appointmentsFile
      ≠ some (saveAppointmentsContent
          (deletePatient 1 sampleStoreUnterminatedFile).1.appointments) := by
  decide

/-- Claim C16 as amended: when `deletePatient id` removes a patient, the
patients file afterwards is the save-rendering of the patients in memory; the
appointments file is the save-rendering of the appointments in memory when
some appointment referred to `id`; when none did, the appointments and their
file are left as they were. -/
theorem deletePatient_persists (st : Store) (id : Int)
    (h : ∃ p ∈ st.patients, p.id = id) :
    (deletePatient id st).1.patientsFile
      = some (savePatientsContent (deletePatient id st).1.patients) ∧
    ((∃ a ∈ st.appointments, a.patient_id = id) →
      (deletePatient id st).1.appointmentsFile
        = some (saveAppointmentsContent (deletePatient id st).1.appointments)) ∧
    ((∀ a ∈ st.appointments, a.patient_id ≠ id) →
      (deletePatient id st).1.appointmentsFile = st.appointmentsFile ∧
      (deletePatient id st).1.appointments = st.appointments) := by
  have habs : ¬ ∀ p ∈ st.patients, p.id ≠ id := by
    intro hall
    obtain ⟨p, hp, hid⟩ := h
    exact hall p hp hid
  obtain ⟨h1, h2, h3, h4⟩ := deletePatient_not_absent id st habs
  refine ⟨by rw [h2, h1], ?_, ?_⟩
  · rintro ⟨a, ha, hid⟩
    have hany : st.appointments.any (fun a => a.patient_id == id) = true := by
      rw [List.any_eq_true]
      exact ⟨a, ha, by simp [hid]⟩
    rw [h4, h3, if_pos hany]
  · intro hall
    have hany : st.appointments.any (fun a => a.patient_id == id) = false := by
      rw [List.any_eq_false]
      intro a ha
      simpa using hall a ha
    refine ⟨by rw [h4, hany]; simp, ?_⟩
    rw [h3]
    apply List.filter_eq_self.mpr
    intro a ha
    simpa using hall a ha

/-- Witness for the amended C16: deleting patient 1 of the sample store, whose
appointment 1 refers to that patient, writes both files. -/
theorem deletePatient_persists_witness :
    (∃ p ∈ sampleStore.patients, p.id = 1) ∧
    (∃ a ∈ sampleStore.appointments, a.patient_id = 1) ∧
    (deletePatient 1 sampleStore).1.appointmentsFile
      = some (saveAppointmentsContent (deletePatient 1 sampleStore).1.appointments) ∧
    (deletePatient 1 sampleStore).1.appointmentsFile
      = some "2|2|Dr A|2024-01-01|09:00|check\n".toList :=
  ⟨⟨samplePatient 1 "Jon Doe".toList, by decide, by decide⟩,
    ⟨sampleAppointment 1 1, by decide, by decide⟩,
    (deletePatient_persists sampleStore 1
      ⟨samplePatient 1 "Jon Doe".toList, by decide, by decide⟩).2.1
      ⟨sampleAppointment 1 1, by decide, by decide⟩,
    by decide⟩

/-! ## Referential integrity -/

/-- Claim C17: if every appointment refers to the identifier of some patient
in the store, the same holds after any of the six mutating operations that
completes. -/
theorem references_stay_valid (op : Op) (st st' : Store) (o : Outcome)
    (hstep : step op st = .ok (st', o))
    (h : ∀ a ∈ st.appointments, ∃ p ∈ st.patients, p.id = a.patient_id) :
    ∀ a ∈ st'.appointments, ∃ p ∈ st'.patients, p.id = a.patient_id := by
  cases op with
  | addPatient name age gender contact notes =>
    simp only [step, addPatient, savePatients, Except.ok.injEq, Prod.mk.injEq] at hstep
    rw [← hstep.1]
    intro a ha
    obtain ⟨p, hp, hid⟩ := h a ha
    exact ⟨p, List.mem_append_left _ hp, hid⟩
  | editPatient id name age gender contact notes =>
    simp only [step] at hstep
    obtain ⟨h1, h2⟩ := editPatient_ok_ids _ _ _ _ _ _ _ _ _ hstep
    intro a ha
    rw [h2] at ha
    obtain ⟨p, hp, hid⟩ := h a ha
    have hm : a.patient_id ∈ st'.patients.map (fun p => p.id) := by
      rw [h1]
      exact List.mem_map.mpr ⟨p, hp, hid⟩
    obtain ⟨q, hq, hqid⟩ := List.mem_map.mp hm
    exact ⟨q, hq, hqid⟩
  | deletePatient id =>
    simp only [step, Except.ok.injEq] at hstep
    by_cases habs : ∀ p ∈ st.patients, p.id ≠ id
    · rw [deletePatient_of_absent id st habs] at hstep
      simp only [Prod.mk.injEq] at hstep
      rw [← hstep.1]; exact h
    · obtain ⟨h1, _, h3, _⟩ := deletePatient_not_absent id st habs
      rw [hstep] at h1 h3
      simp only at h1 h3
      intro a ha
      rw [h3, List.mem_filter] at ha
      obtain ⟨p, hp, hid⟩ := h a ha.1
      refine ⟨p, ?_, hid⟩
      rw [h1, List.mem_filter]
      refine ⟨hp, ?_⟩
      rw [hid]
      exact ha.2
  | addAppointment pid doctor date time reason =>
    simp only [step, addAppointment, Except.ok.injEq] at hstep
    split at hstep
    · simp only [Prod.mk.injEq] at hstep
      rw [← hstep.1]; exact h
    · rename_i hfound
      simp only [saveAppointments, Prod.mk.injEq] at hstep
      rw [← hstep.1]
      intro a ha
      rcases List.mem_append.mp ha with ha | ha
      · exact h a ha
      · rw [List.mem_singleton] at ha
        have hany : st.patients.any (fun p => p.id == pid) = true := by
          simpa using hfound
        obtain ⟨p, hp, hid⟩ := List.any_eq_true.mp hany
        refine ⟨p, hp, ?_⟩
        rw [ha]
        simpa using hid
  | editAppointment id doctor date time reason =>
    simp only [step, Except.ok.injEq] at hstep
    have hc := editAppointment_cases id doctor date time reason st
    rw [hstep] at hc
    simp only at hc
    rcases hc with hs | ⟨_, h2, _, h4⟩
    · rw [hs]; exact h
    · intro a ha
      have hm : a.patient_id ∈ st.appointments.map (fun a => a.patient_id) := by
        rw [← h4]
        exact List.mem_map.mpr ⟨a, ha, rfl⟩
      obtain ⟨b, hb, hbid⟩ := List.mem_map.mp hm
      obtain ⟨p, hp, hid⟩ := h b hb
      refine ⟨p, by rw [h2]; exact hp, ?_⟩
      rw [hid]; exact hbid
  | deleteAppointment id =>
    simp only [step, Except.ok.injEq] at hstep
    have h1 := deleteAppointment_patients id st
    have h2 := deleteAppointment_appointments id st
    rw [hstep] at h1 h2
    simp only at h1 h2
    intro a ha
    rw [h2, List.mem_filter] at ha
    rw [h1]
    exact h a ha.1

/-- Witness for C17: deleting patient 1 from the sample store leaves
appointment 2, which refers to the remaining patient 2. -/
theorem references_stay_valid_witness :
    (∀ a ∈ sampleStore.appointments, ∃ p ∈ sampleStore.patients, p.id = a.patient_id) ∧
    (∀ a ∈ (deletePatient 1 sampleStore).1.appointments,
      ∃ p ∈ (deletePatient 1 sampleStore).1.patients, p.id = a.patient_id) :=
  ⟨by decide,
    references_stay_valid (.deletePatient 1) sampleStore (deletePatient 1 sampleStore).1
      (deletePatient 1 sampleStore).2 rfl (by decide)⟩

/-! ## Identifier reuse -/

theorem addAppointment_of_found (pid : Int) (doctor date time reason : Str) (st : Store)
    (h : st.patients.any (fun p => p.id == pid) = true) :
    (addAppointment pid doctor date time reason st).1.appointments
      = st.appointments ++
        [⟨nextAppointmentId st.appointments, pid, doctor, date, time, reason⟩] ∧
    (addAppointment pid doctor date time reason st).1.patients = st.patients := by
  simp [addAppointment, h, saveAppointments]

theorem filter_ne_append_self {α : Type} (f : α → Int) (v : List α) (x : α) (n : Int)
    (hx : f x = n) :
    (v ++ [x]).filter (fun y => !(f y == n)) = v.filter (fun y => !(f y == n)) := by
  simp [List.filter_append, hx]

theorem foldl_max_filter_next {α : Type} (f : α → Int) (v : List α) :
    (v.filter (fun p => !(f p == wrapInt32 (v.foldl (fun m p => max m (f p)) 0 + 1)))).foldl
        (fun m p => max m (f p)) 0
      = v.foldl (fun m p => max m (f p)) 0 := by
  obtain ⟨h0, hub, hcase⟩ := foldl_max_spec f v 0
  obtain ⟨h0', hub', hcase'⟩ := foldl_max_spec f
    (v.filter (fun p => !(f p == wrapInt32 (v.foldl (fun m p => max m (f p)) 0 + 1)))) 0
  apply le_antisymm
  · rcases hcase' with he | ⟨q, hq, hqe⟩
    · exact he.le.trans h0
    · exact hqe.symm.le.trans (hub q (List.mem_filter.mp hq).1)
  · rcases hcase with he | ⟨p, hp, hpe⟩
    · exact he.le.trans h0'
    · have hne := wrapInt32_succ_ne (v.foldl (fun m p => max m (f p)) 0)
      have hpf : f p ≠ wrapInt32 (v.foldl (fun m p => max m (f p)) 0 + 1) :=
        fun he => hne (he.symm.trans hpe)
      exact hpe.symm.le.trans (hub' p (List.mem_filter.mpr ⟨hp, by simpa using hpf⟩))

theorem foldl_max_after_removing_max {α : Type} (f : α → Int) (v : List α) (m : Int)
    (hpos : ∀ p ∈ v, 0 < f p) (hmem : ∃ p ∈ v, f p = m) (hmax : ∀ p ∈ v, f p ≤ m) :
    wrapInt32 ((v.filter (fun p => !(f p == m))).foldl (fun k p => max k (f p)) 0 + 1)
      ≤ m := by
  obtain ⟨p0, hp0, hp0m⟩ := hmem
  have hm : 0 < m := hp0m ▸ hpos p0 hp0
  obtain ⟨h0, _, hcase⟩ := foldl_max_spec f (v.filter (fun p => !(f p == m))) 0
  have hw := wrapInt32_le_self
    ((v.filter (fun p => !(f p == m))).foldl (fun k p => max k (f p)) 0 + 1) (by omega)
  rcases hcase with h0e | ⟨q, hq, hqe⟩
  · rw [h0e] at hw ⊢; omega
  · rw [List.mem_filter] at hq
    have h1 := hmax q hq.1
    have h2 : f q ≠ m := by simpa using hq.2
    omega

/-- Claim C18: a record added to a collection gets `n = nextId`; after
deleting the records with identifier `n`, the next record added gets `n`
again (and when all identifiers are below 2147483647 the delete restores the
collection). After deleting the record with the maximum identifier `m` of a
collection of positive identifiers, `nextId` of the remainder is at most `m`. -/
theorem deleted_max_id_is_reused (st : Store) (name gender contact notes : Str) (age : Int)
    (name2 gender2 contact2 notes2 : Str) (age2 : Int)
    (pid : Int) (doctor date time reason doctor2 date2 time2 reason2 : Str) (m : Int) :
    ((addPatient name age gender contact notes st).1.patients
        = st.patients ++ [⟨nextPatientId st.patients, name, age, gender, contact, notes⟩] ∧
      (addPatient name2 age2 gender2 contact2 notes2
          (deletePatient (nextPatientId st.patients)
            (addPatient name age gender contact notes st).1).1).1.patients
        = st.patients.filter (fun p => !(p.id == nextPatientId st.patients)) ++
          [⟨nextPatientId st.patients, name2, age2, gender2, contact2, notes2⟩] ∧
      ((∀ p ∈ st.patients, p.id < 2147483647) →
        (deletePatient (nextPatientId st.patients)
            (addPatient name age gender contact notes st).1).1.patients = st.patients)) ∧
    ((∃ p ∈ st.patients, p.id = pid) →
      (addAppointment pid doctor date time reason st).1.appointments
        = st.appointments ++
          [⟨nextAppointmentId st.appointments, pid, doctor, date, time, reason⟩] ∧
      (addAppointment pid doctor2 date2 time2 reason2
          (deleteAppointment (nextAppointmentId st.appointments)
            (addAppointment pid doctor date time reason st).1).1).1.appointments
        = st.appointments.filter (fun a => !(a.id == nextAppointmentId st.appointments)) ++
          [⟨nextAppointmentId st.appointments, pid, doctor2, date2, time2, reason2⟩] ∧
      ((∀ a ∈ st.appointments, a.id < 2147483647) →
        (deleteAppointment (nextAppointmentId st.appointments)
            (addAppointment pid doctor date time reason st).1).1.appointments
          = st.appointments)) ∧
    ((∀ p ∈ st.patients, 0 < p.id) → (∃ p ∈ st.patients, p.id = m) →
      (∀ p ∈ st.patients, p.id ≤ m) →
      nextPatientId (deletePatient m st).1.patients ≤ m) ∧
    ((∀ a ∈ st.appointments, 0 < a.id) → (∃ a ∈ st.appointments, a.id = m) →
      (∀ a ∈ st.appointments, a.id ≤ m) →
      nextAppointmentId (deleteAppointment m st).1.appointments ≤ m) := by
  refine ⟨?_, ?_, ?_, ?_⟩
  · have h1 : (addPatient name age gender contact notes st).1.patients
        = st.patients ++ [⟨nextPatientId st.patients, name, age, gender, contact, notes⟩] :=
      rfl
    have h2 : (deletePatient (nextPatientId st.patients)
        (addPatient name age gender contact notes st).1).1.patients
        = st.patients.filter (fun p => !(p.id == nextPatientId st.patients)) := by
      rw [deletePatient_patients, h1]
      exact filter_ne_append_self (fun p : Patient => p.id) st.patients _ _ rfl
    have h3 : nextPatientId
        (st.patients.filter (fun p => !(p.id == nextPatientId st.patients)))
        = nextPatientId st.patients := by
      simp only [nextPatientId]
      rw [foldl_max_filter_next (fun p : Patient => p.id) st.patients]
    refine ⟨h1, ?_, ?_⟩
    · have hadd : ∀ s : Store, (addPatient name2 age2 gender2 contact2 notes2 s).1.patients
          = s.patients ++ [⟨nextPatientId s.patients, name2, age2, gender2, contact2, notes2⟩] :=
        fun _ => rfl
      rw [hadd, h2, h3]
    · intro hr
      rw [h2]
      apply List.filter_eq_self.mpr
      intro p hp
      have hfresh := nextPatientId_fresh st.patients hr
      have : p.id ≠ nextPatientId st.patients :=
        fun he => hfresh (he ▸ List.mem_map.mpr ⟨p, hp, rfl⟩)
      simpa using this
  · intro hex
    have hany : st.patients.any (fun p => p.id == pid) = true := by
      rw [List.any_eq_true]
      obtain ⟨p, hp, hid⟩ := hex
      exact ⟨p, hp, by simp [hid]⟩
    obtain ⟨h1, h1p⟩ := addAppointment_of_found pid doctor date time reason st hany
    have h2 : (deleteAppointment (nextAppointmentId st.appointments)
        (addAppointment pid doctor date time reason st).1).1.appointments
        = st.appointments.filter (fun a => !(a.id == nextAppointmentId st.appointments)) := by
      rw [deleteAppointment_appointments, h1]
      exact filter_ne_append_self (fun a : Appointment => a.id) st.appointments _ _ rfl
    have h2p : (deleteAppointment (nextAppointmentId st.appointments)
        (addAppointment pid doctor date time reason st).1).1.patients = st.patients := by
      rw [deleteAppointment_patients, h1p]
    have h3 : nextAppointmentId
        (st.appointments.filter (fun a => !(a.id == nextAppointmentId st.appointments)))
        = nextAppointmentId st.appointments := by
      simp only [nextAppointmentId]
      rw [foldl_max_filter_next (fun a : Appointment => a.id) st.appointments]
    refine ⟨h1, ?_, ?_⟩
    · have hany2 : (deleteAppointment (nextAppointmentId st.appointments)
          (addAppointment pid doctor date time reason st).1).1.patients.any
            (fun p => p.id == pid) = true := by
        rw [h2p]; exact hany
      rw [(addAppointment_of_found pid doctor2 date2 time2 reason2 _ hany2).1, h2, h3]
    · intro hr
      rw [h2]
      apply List.filter_eq_self.mpr
      intro a ha
      have hfresh := nextAppointmentId_fresh st.appointments hr
      have : a.id ≠ nextAppointmentId st.appointments :=
        fun he => hfresh (he ▸ List.mem_map.mpr ⟨a, ha, rfl⟩)
      simpa using this
  · intro hpos hmem hmax
    rw [deletePatient_patients]
    exact foldl_max_after_removing_max (fun p : Patient => p.id) st.patients m hpos hmem hmax
  · intro hpos hmem hmax
    rw [deleteAppointment_appointments]
    exact foldl_max_after_removing_max (fun a : Appointment => a.id) st.appointments m
      hpos hmem hmax

/-- Witness for C18: in the sample store an appointment for patient 1 gets
identifier 3, deleting appointment 3 and adding again gives 3 once more; and
deleting appointment 2, the maximum, makes the next identifier 2. -/
theorem deleted_max_id_is_reused_witness :
    (∃ p ∈ sampleStore.patients, p.id = 1) ∧
    nextAppointmentId sampleStore.appointments = 3 ∧
    (addAppointment 1 [] [] [] []
        (deleteAppointment (nextAppointmentId sampleStore.appointments)
          (addAppointment 1 [] [] [] [] sampleStore).1).1).1.appointments
      = sampleStore.appointments.filter
          (fun a => !(a.id == nextAppointmentId sampleStore.appointments)) ++
        [⟨nextAppointmentId sampleStore.appointments, 1, [], [], [], []⟩] ∧
    (deleteAppointment (nextAppointmentId sampleStore.appointments)
        (addAppointment 1 [] [] [] [] sampleStore).1).1.appointments
      = sampleStore.appointments ∧
    nextAppointmentId (deleteAppointment 2 sampleStore).1.appointments ≤ 2 ∧
    nextPatientId (deletePatient 2 sampleStore).1.patients ≤ 2 :=
  ⟨⟨samplePatient 1 "Jon Doe".toList, by decide, by decide⟩, by decide,
    ((deleted_max_id_is_reused sampleStore [] [] [] [] 0 [] [] [] [] 0 1
        [] [] [] [] [] [] [] [] 2).2.1
      ⟨samplePatient 1 "Jon Doe".toList, by decide, by decide⟩).2.1,
    ((deleted_max_id_is_reused sampleStore [] [] [] [] 0 [] [] [] [] 0 1
        [] [] [] [] [] [] [] [] 2).2.1
      ⟨samplePatient 1 "Jon Doe".toList, by decide, by decide⟩).2.2 (by decide),
    (deleted_max_id_is_reused sampleStore [] [] [] [] 0 [] [] [] [] 0 1
        [] [] [] [] [] [] [] [] 2).2.2.2 (by decide)
      ⟨sampleAppointment 2 2, by decide, by decide⟩ (by decide),
    (deleted_max_id_is_reused sampleStore [] [] [] [] 0 [] [] [] [] 0 1
        [] [] [] [] [] [] [] [] 2).2.2.1 (by decide)
      ⟨samplePatient 2 "Ann".toList, by decide, by decide⟩ (by decide)⟩

/-! ## CSV quoting -/

theorem findChar_none (t : Str) (c : Char) (pos : Nat) (h : findChar t c pos = none) :
    c ∉ t.drop pos := by
  induction t generalizing pos with
  | nil => simp
  | cons x xs ih =>
    cases pos with
    | zero =>
      simp only [findChar] at h
      split at h
      · exact absurd h (by simp)
      · rename_i hx
        simp only [Option.map_eq_none'] at h
        have := ih 0 h
        simp only [List.drop_zero] at this ⊢
        intro hmem
        rcases List.mem_cons.mp hmem with he | hm
        · exact hx he.symm
        · exact this hm
    | succ i =>
      simp only [findChar, Option.map_eq_none'] at h
      simpa using ih i h

theorem findChar_some (t : Str) (c : Char) (pos q : Nat) (h : findChar t c pos = some q) :
    ∃ a b, t.drop pos = a ++ c :: b ∧ c ∉ a ∧ q = pos + a.length ∧ pos ≤ t.length := by
  induction t generalizing pos q with
  | nil => simp [findChar] at h
  | cons x xs ih =>
    cases pos with
    | zero =>
      simp only [findChar] at h
      split at h
      · rename_i hx
        simp only [Option.some.injEq] at h
        exact ⟨[], xs, by simp [hx], by simp, by simp [← h], by simp⟩
      · rename_i hx
        simp only [Option.map_eq_some'] at h
        obtain ⟨k, hk, hkq⟩ := h
        obtain ⟨a, b, hd, hna, hka, _⟩ := ih 0 k hk
        simp only [List.drop_zero] at hd
        refine ⟨x :: a, b, by simp [hd], ?_, by simp only [List.length_cons]; omega, by simp⟩
        intro hmem
        rcases List.mem_cons.mp hmem with he | hm
        · exact hx he.symm
        · exact hna hm
    | succ i =>
      simp only [findChar, Option.map_eq_some'] at h
      obtain ⟨k, hk, hkq⟩ := h
      obtain ⟨a, b, hd, hna, hka, hle⟩ := ih i k hk
      exact ⟨a, b, by simpa using hd, hna, by omega, by simp only [List.length_cons]; omega⟩

theorem flatMap_double_of_not_mem (a : Str) (h : '"' ∉ a) :
    a.flatMap (fun c => if c = '"' then ['"', '"'] else [c]) = a := by
  induction a with
  | nil => rfl
  | cons x xs ih =>
    have hx : x ≠ '"' := fun he => h (by simp [he])
    have hxs : '"' ∉ xs := fun hm => h (List.mem_cons_of_mem _ hm)
    simp [List.flatMap_cons, hx, ih hxs]

theorem escLoop_eq (n : Nat) : ∀ (t : Str) (pos : Nat), t.length - pos = n →
    escLoop t pos
      = t.take pos ++ (t.drop pos).flatMap (fun c => if c = '"' then ['"', '"'] else [c]) := by
  induction n using Nat.strong_induction_on with
  | _ n ih =>
    intro t pos hn
    rw [escLoop]
    split
    · rename_i hnone
      rw [flatMap_double_of_not_mem _ (findChar_none t '"' pos hnone), List.take_append_drop]
    · rename_i q hsome
      obtain ⟨a, b, hd, hna, hq, hle⟩ := findChar_some t '"' pos q hsome
      have ht : t = (t.take pos ++ a) ++ '"' :: b := by
        rw [List.append_assoc, ← hd, List.take_append_drop]
      have hlen : (t.take pos ++ a).length = q := by
        rw [List.length_append, List.length_take, hq]
        omega
      have hins : insertAt t q '"' = (t.take pos ++ a ++ ['"', '"']) ++ b := by
        unfold insertAt
        have h1 : t.take q = t.take pos ++ a := by
          conv_lhs => rw [ht, ← hlen]
          exact List.take_left _ _
        have h2 : t.drop q = '"' :: b := by
          conv_lhs => rw [ht, ← hlen]
          exact List.drop_left _ _
        rw [h1, h2]
        simp
      have hlen2 : (t.take pos ++ a ++ ['"', '"']).length = q + 2 := by
        rw [List.length_append, hlen]
        rfl
      have hmeasure : (insertAt t q '"').length - (q + 2) < n := by
        have hl : t.length = q + 1 + b.length := by
          conv_lhs => rw [ht]
          rw [List.length_append, hlen, List.length_cons]
          omega
        rw [hins, List.length_append, hlen2]
        omega
      rw [ih _ hmeasure (insertAt t q '"') (q + 2) rfl, hins]
      have h3 : (t.take pos ++ a ++ ['"', '"'] ++ b).take (q + 2)
          = t.take pos ++ a ++ ['"', '"'] := by
        rw [← hlen2]
        exact List.take_left _ _
      have h4 : (t.take pos ++ a ++ ['"', '"'] ++ b).drop (q + 2) = b := by
        rw [← hlen2]
        exact List.drop_left _ _
      rw [h3, h4, hd, List.flatMap_append, flatMap_double_of_not_mem a hna,
        List.flatMap_cons]
      simp

theorem esc_eq_quotedField (s : Str) : esc s = quotedField s := by
  unfold esc quotedField
  rw [escLoop_eq (s.length - 0) s 0 rfl]
  simp

/-- Claim C20: for every text `s` the quoting helper `esc` (a total function:
its loop ends) returns a double quote, then `s` with every double quote
doubled and every other character unchanged, then a double quote. -/
theorem esc_doubles_quotes (s : Str) :
    esc s = ['"'] ++ s.flatMap (fun c => if c = '"' then ['"', '"'] else [c]) ++ ['"'] ∧
    esc "a,\"b\"\nc".toList = "\"a,\"\"b\"\"\nc\"".toList := by
  refine ⟨esc_eq_quotedField s, ?_⟩
  rw [esc_eq_quotedField]
  decide

/-! ## CSV export rows -/

theorem foldl_append_eq_flatMap {α : Type} (f : α → Str) (v : List α) (init : Str) :
    v.foldl (fun out x => out ++ f x) init = init ++ v.flatMap f := by
  induction v generalizing init with
  | nil => simp
  | cons x xs ih => simp [List.foldl_cons, ih, List.flatMap_cons]

theorem exportPatientsCSV_eq (patients : List Patient) :
    exportPatientsCSV patients
      = "id,name,age,gender,contact,notes\n".toList ++ patients.flatMap (fun p =>
          to_string p.id ++ [','] ++ quotedField p.name ++ [','] ++ to_string p.age ++ [',']
            ++ quotedField p.gender ++ [','] ++ quotedField p.contact ++ [',']
            ++ quotedField p.notes ++ ['\n']) := by
  rw [← foldl_append_eq_flatMap]
  unfold exportPatientsCSV
  congr 1
  funext out p
  simp only [esc_eq_quotedField, List.append_assoc]

theorem exportAppointmentsCSV_eq (appointments : List Appointment) :
    exportAppointmentsCSV appointments
      = "id,patient_id,doctor,date,time,reason\n".toList ++ appointments.flatMap (fun a =>
          to_string a.id ++ [','] ++ to_string a.patient_id ++ [','] ++ quotedField a.doctor
            ++ [','] ++ quotedField a.date ++ [','] ++ quotedField a.time ++ [',']
            ++ quotedField a.reason ++ ['\n']) := by
  rw [← foldl_append_eq_flatMap]
  unfold exportAppointmentsCSV
  congr 1
  funext out a
  simp only [esc_eq_quotedField, List.append_assoc]

/-- Claim C12, where it fails: in the export of one patient the integer fields
`1` and `30` stand without quotes, and in the export of one appointment so do
`1` and `1`; the rows are not the ones with all six fields quoted. -/
theorem export_integers_unquoted :
    exportPatientsCSV [samplePatient 1 "Jon \"J\" Doe".toList]
      = "id,name,age,gender,contact,notes\n1,\"Jon \"\"J\"\" Doe\",30,\"F\",\"555\",\"ok\"\n".toList ∧
    exportPatientsCSV [samplePatient 1 "Jon \"J\" Doe".toList]
      ≠ ("id,name,age,gender,contact,notes\n".toList
          ++ "\"1\",\"Jon \"\"J\"\" Doe\",\"30\",\"F\",\"555\",\"ok\"\n".toList) ∧
    exportAppointmentsCSV [sampleAppointment 1 1]
      = ("id,patient_id,doctor,date,time,reason\n".toList
          ++ "1,1,\"Dr A\",\"2024-01-01\",\"09:00\",\"check\"\n".toList) ∧
    exportAppointmentsCSV [sampleAppointment 1 1]
      ≠ ("id,patient_id,doctor,date,time,reason\n".toList
          ++ "\"1\",\"1\",\"Dr A\",\"2024-01-01\",\"09:00\",\"check\"\n".toList) := by
  rw [exportPatientsCSV_eq, exportAppointmentsCSV_eq]
  decide

/-- Claim C12 as amended: the export is the header row followed by one row per
record, the fields separated by commas; each text field is wrapped in double
quotes with every internal double quote doubled, and the integer fields (`id`
and `age`, `id` and `patient_id`) are written in decimal without quotes. -/
theorem export_rows (patients : List Patient) (appointments : List Appointment) :
    exportPatientsCSV patients
      = "id,name,age,gender,contact,notes\n".toList ++ patients.flatMap (fun p =>
          to_string p.id ++ [','] ++ quotedField p.name ++ [','] ++ to_string p.age ++ [',']
            ++ quotedField p.gender ++ [','] ++ quotedField p.contact ++ [',']
            ++ quotedField p.notes ++ ['\n']) ∧
    exportAppointmentsCSV appointments
      = "id,patient_id,doctor,date,time,reason\n".toList ++ appointments.flatMap (fun a =>
          to_string a.id ++ [','] ++ to_string a.patient_id ++ [','] ++ quotedField a.doctor
            ++ [','] ++ quotedField a.date ++ [','] ++ quotedField a.time ++ [',']
            ++ quotedField a.reason ++ ['\n']) :=
  ⟨exportPatientsCSV_eq patients, exportAppointmentsCSV_eq appointments⟩

/-! ## Round trip of records without backslash and newline -/

theorem digitChar_lt_ten (k : Nat) (hk : k < 10) :
    (Nat.digitChar k).isDigit = true ∧ ((Nat.digitChar k).toNat : Int) - 48 = (k : Int) := by
  interval_cases k <;> exact ⟨by decide, by decide⟩

theorem toDigitsCore_spec (fuel : Nat) : ∀ (n : Nat) (ds : Str), n < fuel →
    ∃ l, Nat.toDigitsCore 10 fuel n ds = l ++ ds ∧ l ≠ [] ∧ (∀ c ∈ l, c.isDigit = true) ∧
      ∀ a : Int, l.foldl (fun a d => 10 * a + ((d.toNat : Int) - 48)) a
        = a * 10 ^ l.length + (n : Int) := by
  induction fuel with
  | zero => intro n ds h; omega
  | succ fuel ih =>
    intro n ds hn
    have hmod := digitChar_lt_ten (n % 10) (Nat.mod_lt _ (by decide))
    by_cases h0 : n / 10 = 0
    · refine ⟨[Nat.digitChar (n % 10)], ?_, by simp, ?_, ?_⟩
      · simp [Nat.toDigitsCore, h0]
      · intro c hc
        rw [List.mem_singleton] at hc
        rw [hc]; exact hmod.1
      · intro a
        simp only [List.foldl_cons, List.foldl_nil, List.length_singleton, pow_one, hmod.2]
        have : n % 10 = n := by omega
        rw [this]; ring
    · have hlt : n / 10 < fuel := by omega
      obtain ⟨l, hl, hne, hdig, hval⟩ := ih (n / 10) (Nat.digitChar (n % 10) :: ds) hlt
      refine ⟨l ++ [Nat.digitChar (n % 10)], ?_, by simp, ?_, ?_⟩
      · simp [Nat.toDigitsCore, h0, hl]
      · intro c hc
        rcases List.mem_append.mp hc with hc | hc
        · exact hdig c hc
        · rw [List.mem_singleton] at hc
          rw [hc]; exact hmod.1
      · intro a
        rw [List.foldl_append, hval]
        simp only [List.foldl_cons, List.foldl_nil, List.length_append, List.length_singleton,
          hmod.2]
        have : (n : Int) = 10 * ((n / 10 : Nat) : Int) + ((n % 10 : Nat) : Int) := by
          omega
        rw [pow_succ]
        linarith

theorem isDigit_props (c : Char) (h : c.isDigit = true) :
    isspace c = false ∧ c ≠ '-' ∧ c ≠ '+' ∧ c ≠ '\\' ∧ c ≠ '|' ∧ c ≠ '\n' := by
  refine ⟨?_, ?_, ?_, ?_, ?_, ?_⟩
  · by_contra hs
    have hs' : isspace c = true := by simpa using hs
    simp only [isspace, Bool.or_eq_true, decide_eq_true_eq] at hs'
    rcases hs' with ((((h1 | h1) | h1) | h1) | h1) | h1 <;> (subst h1; revert h; decide)
  all_goals (intro he; subst he; revert h; decide)

theorem stoi_of_digits (l : Str) (hne : l ≠ []) (hd : ∀ c ∈ l, c.isDigit = true)
    (hlo : -2147483648 ≤ digitsValue l) (hhi : digitsValue l ≤ 2147483647) :
    stoi l = .ok (digitsValue l) := by
  obtain ⟨c, r, rfl⟩ := List.exists_cons_of_ne_nil hne
  obtain ⟨hsp, hm, hpl, _, _, _⟩ := isDigit_props c (hd c (List.mem_cons_self _ _))
  have htw : (c :: r).takeWhile Char.isDigit = c :: r :=
    List.takeWhile_eq_self_iff.mpr hd
  have hdw : (c :: r).dropWhile isspace = c :: r := by
    simp [List.dropWhile_cons, hsp]
  have hneg : ¬ (c :: r).head? = some '-' := by simpa using hm
  have hmatch : stoi.match_1 (fun _ => Str) (c :: r) (fun r => r) (fun r => r)
      (fun _ => c :: r) = c :: r := by
    split
    · rename_i heq; simp only [List.cons.injEq] at heq; exact absurd heq.1 hm
    · rename_i heq; simp only [List.cons.injEq] at heq; exact absurd heq.1 hpl
    · rfl
  unfold stoi
  simp only [hdw]
  rw [hmatch, htw]
  simp only [hneg, if_false, reduceCtorEq]
  rw [if_neg (by omega)]

theorem stoi_of_minus_digits (l : Str) (hne : l ≠ []) (hd : ∀ c ∈ l, c.isDigit = true)
    (hlo : -2147483648 ≤ - digitsValue l) (hhi : - digitsValue l ≤ 2147483647) :
    stoi ('-' :: l) = .ok (- digitsValue l) := by
  have htw : l.takeWhile Char.isDigit = l := List.takeWhile_eq_self_iff.mpr hd
  have hdw : ('-' :: l).dropWhile isspace = '-' :: l := by
    rw [List.dropWhile_cons]
    have : isspace '-' = false := by decide
    simp [this]
  unfold stoi
  simp only [hdw, htw, List.head?_cons, if_true]
  rw [if_neg hne, if_neg (by omega)]

theorem to_string_nat_spec (n : Nat) :
    ∃ l, Nat.toDigits 10 n = l ∧ l ≠ [] ∧ (∀ c ∈ l, c.isDigit = true) ∧
      digitsValue l = (n : Int) := by
  obtain ⟨l, hl, hne, hdig, hval⟩ := toDigitsCore_spec (n + 1) n [] (Nat.lt_succ_self n)
  refine ⟨l, by simpa [Nat.toDigits] using hl, hne, hdig, ?_⟩
  have := hval 0
  simpa [digitsValue] using this

theorem stoi_to_string (i : Int) (hlo : -2147483648 ≤ i) (hhi : i ≤ 2147483647) :
    stoi (to_string i) = .ok i := by
  cases i with
  | ofNat n =>
    obtain ⟨l, hl, hne, hdig, hval⟩ := to_string_nat_spec n
    have hi : Int.ofNat n = (n : Int) := rfl
    rw [hi] at hlo hhi ⊢
    simp only [to_string]
    rw [hl, stoi_of_digits l hne hdig (by omega) (by omega), hval]
  | negSucc n =>
    obtain ⟨l, hl, hne, hdig, hval⟩ := to_string_nat_spec (n + 1)
    have hi : Int.negSucc n = - ((n + 1 : Nat) : Int) := rfl
    rw [hi] at hlo hhi
    simp only [to_string]
    rw [hl, stoi_of_minus_digits l hne hdig (by omega) (by omega), hval, hi]

theorem to_string_chars (i : Int) (c : Char) (hc : c ∈ to_string i) :
    c ≠ '\\' ∧ c ≠ '|' ∧ c ≠ '\n' := by
  cases i with
  | ofNat n =>
    obtain ⟨l, hl, _, hdig, _⟩ := to_string_nat_spec n
    simp only [to_string, hl] at hc
    obtain ⟨_, _, _, h1, h2, h3⟩ := isDigit_props c (hdig c hc)
    exact ⟨h1, h2, h3⟩
  | negSucc n =>
    obtain ⟨l, hl, _, hdig, _⟩ := to_string_nat_spec (n + 1)
    simp only [to_string, hl] at hc
    rcases List.mem_cons.mp hc with he | hm
    · subst he; decide
    · obtain ⟨_, _, _, h1, h2, h3⟩ := isDigit_props c (hdig c hm)
      exact ⟨h1, h2, h3⟩

theorem escapeField_of_plain (x : Str) (h1 : '|' ∉ x) (h2 : '\n' ∉ x) : escapeField x = x := by
  induction x with
  | nil => rfl
  | cons c r ih =>
    have hc1 : c ≠ '|' := fun he => h1 (by simp [he])
    have hc2 : c ≠ '\n' := fun he => h2 (by simp [he])
    rw [escapeField, if_neg hc1, if_neg hc2,
      ih (fun hm => h1 (List.mem_cons_of_mem _ hm)) (fun hm => h2 (List.mem_cons_of_mem _ hm))]

theorem escapeField_to_string (i : Int) : escapeField (to_string i) = to_string i :=
  escapeField_of_plain _ (fun h => (to_string_chars i _ h).2.1 rfl)
    (fun h => (to_string_chars i _ h).2.2 rfl)

theorem escapeField_no_newline (x : Str) : '\n' ∉ escapeField x := by
  induction x with
  | nil => simp [escapeField]
  | cons c r ih =>
    rw [escapeField]
    split
    · simp only [List.mem_cons, not_or]
      exact ⟨by decide, by decide, ih⟩
    · split
      · simp only [List.mem_cons, not_or]
        exact ⟨by decide, by decide, ih⟩
      · rename_i h1 h2
        simp only [List.mem_cons, not_or]
        exact ⟨fun he => h2 he.symm, ih⟩

theorem splitLineLoop_escape (x rest : Str) (parts : List Str) (cur : Str)
    (hb : '\\' ∉ x) (hn : '\n' ∉ x) :
    splitLineLoop (escapeField x ++ rest) parts cur false
      = splitLineLoop rest parts (cur ++ x) false := by
  induction x generalizing cur with
  | nil => simp [escapeField]
  | cons c r ih =>
    have hcb : c ≠ '\\' := fun he => hb (by simp [he])
    have hcn : c ≠ '\n' := fun he => hn (by simp [he])
    have ih' := fun cur => ih cur (fun hm => hb (List.mem_cons_of_mem _ hm))
      (fun hm => hn (List.mem_cons_of_mem _ hm))
    by_cases hp : c = '|'
    · subst hp
      simp [escapeField, splitLineLoop, ih']
    · rw [escapeField, if_neg hp, if_neg hcn, List.cons_append, splitLineLoop]
      simp only [Bool.false_eq_true, if_false, hcb, hp]
      rw [ih']
      simp

theorem splitLine_six (f0 f1 f2 f3 f4 f5 : Str)
    (h0 : '\\' ∉ f0 ∧ '\n' ∉ f0) (h1 : '\\' ∉ f1 ∧ '\n' ∉ f1) (h2 : '\\' ∉ f2 ∧ '\n' ∉ f2)
    (h3 : '\\' ∉ f3 ∧ '\n' ∉ f3) (h4 : '\\' ∉ f4 ∧ '\n' ∉ f4) (h5 : '\\' ∉ f5 ∧ '\n' ∉ f5) :
    splitLine (escapeField f0 ++ ['|'] ++ escapeField f1 ++ ['|'] ++ escapeField f2 ++ ['|']
      ++ escapeField f3 ++ ['|'] ++ escapeField f4 ++ ['|'] ++ escapeField f5)
      = [f0, f1, f2, f3, f4, f5] := by
  have hlast : ∀ parts cur, splitLineLoop (escapeField f5) parts cur false
      = parts ++ [cur ++ f5] := by
    intro parts cur
    have := splitLineLoop_escape f5 [] parts cur h5.1 h5.2
    rw [List.append_nil] at this
    rw [this, splitLineLoop]
  have hpipe : ∀ rest parts cur, splitLineLoop ('|' :: rest) parts cur false
      = splitLineLoop rest (parts ++ [cur]) [] false := by
    intro rest parts cur
    rw [splitLineLoop]
    simp
  unfold splitLine
  simp only [List.append_assoc, List.singleton_append, List.cons_append, List.nil_append]
  rw [splitLineLoop_escape f0 _ _ _ h0.1 h0.2, hpipe,
    splitLineLoop_escape f1 _ _ _ h1.1 h1.2, hpipe,
    splitLineLoop_escape f2 _ _ _ h2.1 h2.2, hpipe,
    splitLineLoop_escape f3 _ _ _ h3.1 h3.2, hpipe,
    splitLineLoop_escape f4 _ _ _ h4.1 h4.2, hpipe, hlast]
  simp

theorem getlinesLoop_line (line rest cur : Str) (h : '\n' ∉ line) :
    getlinesLoop (line ++ '\n' :: rest) cur = (cur ++ line) :: getlinesLoop rest [] := by
  induction line generalizing cur with
  | nil => simp [getlinesLoop]
  | cons c r ih =>
    have hc : c ≠ '\n' := fun he => h (by simp [he])
    rw [List.cons_append, getlinesLoop, if_neg hc,
      ih (cur ++ [c]) (fun hm => h (List.mem_cons_of_mem _ hm))]
    simp

theorem getlines_flatMap {α : Type} (line : α → Str) (v : List α)
    (h : ∀ x ∈ v, '\n' ∉ line x) :
    getlines (v.flatMap (fun x => line x ++ ['\n'])) = v.map line := by
  unfold getlines
  induction v with
  | nil => simp [getlinesLoop]
  | cons x xs ih =>
    rw [List.flatMap_cons, List.append_assoc, List.singleton_append,
      getlinesLoop_line _ _ _ (h x (List.mem_cons_self _ _)),
      ih (fun y hy => h y (List.mem_cons_of_mem _ hy))]
    simp

theorem to_string_plain (i : Int) : '\\' ∉ to_string i ∧ '\n' ∉ to_string i :=
  ⟨fun h => (to_string_chars i _ h).1 rfl, fun h => (to_string_chars i _ h).2.2 rfl⟩

theorem renderPatient_eq (p : Patient) :
    renderPatient p
      = (escapeField (to_string p.id) ++ ['|'] ++ escapeField p.name ++ ['|']
        ++ escapeField (to_string p.age) ++ ['|'] ++ escapeField p.gender ++ ['|']
        ++ escapeField p.contact ++ ['|'] ++ escapeField p.notes) ++ ['\n'] := rfl

theorem renderAppointment_eq (a : Appointment) :
    renderAppointment a
      = (escapeField (to_string a.id) ++ ['|'] ++ escapeField (to_string a.patient_id) ++ ['|']
        ++ escapeField a.doctor ++ ['|'] ++ escapeField a.date ++ ['|']
        ++ escapeField a.time ++ ['|'] ++ escapeField a.reason) ++ ['\n'] := rfl

theorem six_fields_no_newline (f0 f1 f2 f3 f4 f5 : Str) :
    '\n' ∉ escapeField f0 ++ ['|'] ++ escapeField f1 ++ ['|'] ++ escapeField f2 ++ ['|']
      ++ escapeField f3 ++ ['|'] ++ escapeField f4 ++ ['|'] ++ escapeField f5 := by
  have hp : '\n' ∉ ['|'] := by decide
  simp only [List.mem_append, not_or]
  exact ⟨⟨⟨⟨⟨⟨⟨⟨⟨⟨escapeField_no_newline f0, hp⟩, escapeField_no_newline f1⟩, hp⟩,
    escapeField_no_newline f2⟩, hp⟩, escapeField_no_newline f3⟩, hp⟩,
    escapeField_no_newline f4⟩, hp⟩, escapeField_no_newline f5⟩

theorem loadPatientsLoop_rendered (ps v : List Patient)
    (hp : ∀ p ∈ ps, (-2147483648 ≤ p.id ∧ p.id ≤ 2147483647) ∧
      (-2147483648 ≤ p.age ∧ p.age ≤ 2147483647) ∧
      ('\\' ∉ p.name ∧ '\n' ∉ p.name) ∧ ('\\' ∉ p.gender ∧ '\n' ∉ p.gender) ∧
      ('\\' ∉ p.contact ∧ '\n' ∉ p.contact) ∧ ('\\' ∉ p.notes ∧ '\n' ∉ p.notes)) :
    loadPatientsLoop (ps.map (fun p =>
        escapeField (to_string p.id) ++ ['|'] ++ escapeField p.name ++ ['|']
          ++ escapeField (to_string p.age) ++ ['|'] ++ escapeField p.gender ++ ['|']
          ++ escapeField p.contact ++ ['|'] ++ escapeField p.notes)) v
      = .ok (v ++ ps) := by
  induction ps generalizing v with
  | nil => simp [loadPatientsLoop]
  | cons p rest ih =>
    obtain ⟨hid, hage, hname, hgender, hcontact, hnotes⟩ := hp p (List.mem_cons_self _ _)
    have hsplit := splitLine_six (to_string p.id) p.name (to_string p.age) p.gender
      p.contact p.notes (to_string_plain _) hname (to_string_plain _) hgender hcontact hnotes
    have hne : escapeField (to_string p.id) ++ ['|'] ++ escapeField p.name ++ ['|']
        ++ escapeField (to_string p.age) ++ ['|'] ++ escapeField p.gender ++ ['|']
        ++ escapeField p.contact ++ ['|'] ++ escapeField p.notes ≠ [] := by
      simp
    rw [List.map_cons, loadPatientsLoop, if_neg hne]
    simp only [hsplit, List.length_cons, List.length_nil, List.getD_cons_zero,
      List.getD_cons_succ]
    rw [unescapeField_of_no_backslash _ (to_string_plain p.id).1,
      unescapeField_of_no_backslash _ (to_string_plain p.age).1,
      stoi_to_string p.id hid.1 hid.2, stoi_to_string p.age hage.1 hage.2]
    simp only [Nat.lt_irrefl, if_false, Nat.reduceAdd, Nat.lt_irrefl]
    have hrec : patientOfFields
        [to_string p.id, p.name, to_string p.age, p.gender, p.contact, p.notes] p.id p.age
        = p := by
      simp only [patientOfFields, List.getD_cons_zero, List.getD_cons_succ,
        unescapeField_of_no_backslash _ hname.1, unescapeField_of_no_backslash _ hgender.1,
        unescapeField_of_no_backslash _ hcontact.1, unescapeField_of_no_backslash _ hnotes.1]
    rw [hrec, ih (v ++ [p]) (fun q hq => hp q (List.mem_cons_of_mem _ hq))]
    simp

theorem loadAppointmentsLoop_rendered (as v : List Appointment)
    (ha : ∀ a ∈ as, (-2147483648 ≤ a.id ∧ a.id ≤ 2147483647) ∧
      (-2147483648 ≤ a.patient_id ∧ a.patient_id ≤ 2147483647) ∧
      ('\\' ∉ a.doctor ∧ '\n' ∉ a.doctor) ∧ ('\\' ∉ a.date ∧ '\n' ∉ a.date) ∧
      ('\\' ∉ a.time ∧ '\n' ∉ a.time) ∧ ('\\' ∉ a.reason ∧ '\n' ∉ a.reason)) :
    loadAppointmentsLoop (as.map (fun a =>
        escapeField (to_string a.id) ++ ['|'] ++ escapeField (to_string a.patient_id) ++ ['|']
          ++ escapeField a.doctor ++ ['|'] ++ escapeField a.date ++ ['|']
          ++ escapeField a.time ++ ['|'] ++ escapeField a.reason)) v
      = .ok (v ++ as) := by
  induction as generalizing v with
  | nil => simp [loadAppointmentsLoop]
  | cons a rest ih =>
    obtain ⟨hid, hpid, hdoctor, hdate, htime, hreason⟩ := ha a (List.mem_cons_self _ _)
    have hsplit := splitLine_six (to_string a.id) (to_string a.patient_id) a.doctor a.date
      a.time a.reason (to_string_plain _) (to_string_plain _) hdoctor hdate htime hreason
    have hne : escapeField (to_string a.id) ++ ['|'] ++ escapeField (to_string a.patient_id)
        ++ ['|'] ++ escapeField a.doctor ++ ['|'] ++ escapeField a.date ++ ['|']
        ++ escapeField a.time ++ ['|'] ++ escapeField a.reason ≠ [] := by
      simp
    rw [List.map_cons, loadAppointmentsLoop, if_neg hne]
    simp only [hsplit, List.length_cons, List.length_nil, List.getD_cons_zero,
      List.getD_cons_succ]
    rw [unescapeField_of_no_backslash _ (to_string_plain a.id).1,
      unescapeField_of_no_backslash _ (to_string_plain a.patient_id).1,
      stoi_to_string a.id hid.1 hid.2, stoi_to_string a.patient_id hpid.1 hpid.2]
    simp only [Nat.lt_irrefl, if_false, Nat.reduceAdd, Nat.lt_irrefl]
    have hrec : appointmentOfFields
        [to_string a.id, to_string a.patient_id, a.doctor, a.date, a.time, a.reason]
        a.id a.patient_id = a := by
      simp only [appointmentOfFields, List.getD_cons_zero, List.getD_cons_succ,
        unescapeField_of_no_backslash _ hdoctor.1, unescapeField_of_no_backslash _ hdate.1,
        unescapeField_of_no_backslash _ htime.1, unescapeField_of_no_backslash _ hreason.1]
    rw [hrec, ih (v ++ [a]) (fun q hq => ha q (List.mem_cons_of_mem _ hq))]
    simp

theorem getlines_savePatientsContent (ps : List Patient) :
    getlines (savePatientsContent ps) = ps.map (fun p =>
      escapeField (to_string p.id) ++ ['|'] ++ escapeField p.name ++ ['|']
        ++ escapeField (to_string p.age) ++ ['|'] ++ escapeField p.gender ++ ['|']
        ++ escapeField p.contact ++ ['|'] ++ escapeField p.notes) := by
  unfold savePatientsContent
  rw [foldl_append_eq_flatMap, List.nil_append]
  have hfun : renderPatient = fun p => (fun p : Patient =>
      escapeField (to_string p.id) ++ ['|'] ++ escapeField p.name ++ ['|']
        ++ escapeField (to_string p.age) ++ ['|'] ++ escapeField p.gender ++ ['|']
        ++ escapeField p.contact ++ ['|'] ++ escapeField p.notes) p ++ ['\n'] := by
    funext p; exact renderPatient_eq p
  rw [hfun]
  exact getlines_flatMap _ ps (fun p _ => six_fields_no_newline _ _ _ _ _ _)

theorem getlines_saveAppointmentsContent (as : List Appointment) :
    getlines (saveAppointmentsContent as) = as.map (fun a =>
      escapeField (to_string a.id) ++ ['|'] ++ escapeField (to_string a.patient_id) ++ ['|']
        ++ escapeField a.doctor ++ ['|'] ++ escapeField a.date ++ ['|']
        ++ escapeField a.time ++ ['|'] ++ escapeField a.reason) := by
  unfold saveAppointmentsContent
  rw [foldl_append_eq_flatMap, List.nil_append]
  have hfun : renderAppointment = fun a => (fun a : Appointment =>
      escapeField (to_string a.id) ++ ['|'] ++ escapeField (to_string a.patient_id) ++ ['|']
        ++ escapeField a.doctor ++ ['|'] ++ escapeField a.date ++ ['|']
        ++ escapeField a.time ++ ['|'] ++ escapeField a.reason) a ++ ['\n'] := by
    funext a; exact renderAppointment_eq a
  rw [hfun]
  exact getlines_flatMap _ as (fun a _ => six_fields_no_newline _ _ _ _ _ _)

/-- Claim C19: for records whose integers are C++ `int` values and whose text
fields contain neither a backslash nor a newline (pipes allowed), the saved
content has exactly one line per record, in order, which `splitLine` divides
into the six fields of that record, and loading the saved content returns the
records unchanged. -/
theorem load_save_roundtrip (ps : List Patient) (as : List Appointment)
    (hp : ∀ p ∈ ps, (-2147483648 ≤ p.id ∧ p.id ≤ 2147483647) ∧
      (-2147483648 ≤ p.age ∧ p.age ≤ 2147483647) ∧
      ('\\' ∉ p.name ∧ '\n' ∉ p.name) ∧ ('\\' ∉ p.gender ∧ '\n' ∉ p.gender) ∧
      ('\\' ∉ p.contact ∧ '\n' ∉ p.contact) ∧ ('\\' ∉ p.notes ∧ '\n' ∉ p.notes))
    (ha : ∀ a ∈ as, (-2147483648 ≤ a.id ∧ a.id ≤ 2147483647) ∧
      (-2147483648 ≤ a.patient_id ∧ a.patient_id ≤ 2147483647) ∧
      ('\\' ∉ a.doctor ∧ '\n' ∉ a.doctor) ∧ ('\\' ∉ a.date ∧ '\n' ∉ a.date) ∧
      ('\\' ∉ a.time ∧ '\n' ∉ a.time) ∧ ('\\' ∉ a.reason ∧ '\n' ∉ a.reason)) :
    loadPatients (some (savePatientsContent ps)) = .ok ps ∧
    List.Forall₂
      (fun line p => line ++ ['\n'] = renderPatient p ∧
        splitLine line = [to_string p.id, p.name, to_string p.age, p.gender, p.contact, p.notes])
      (getlines (savePatientsContent ps)) ps ∧
    loadAppointments (some (saveAppointmentsContent as)) = .ok as ∧
    List.Forall₂
      (fun line a => line ++ ['\n'] = renderAppointment a ∧
        splitLine line
          = [to_string a.id, to_string a.patient_id, a.doctor, a.date, a.time, a.reason])
      (getlines (saveAppointmentsContent as)) as := by
  refine ⟨?_, ?_, ?_, ?_⟩
  · simp only [loadPatients]
    rw [getlines_savePatientsContent, loadPatientsLoop_rendered ps [] hp, List.nil_append]
  · rw [getlines_savePatientsContent, List.forall₂_map_left_iff, List.forall₂_same]
    intro p hmem
    obtain ⟨_, _, hname, hgender, hcontact, hnotes⟩ := hp p hmem
    exact ⟨(renderPatient_eq p).symm,
      splitLine_six _ _ _ _ _ _ (to_string_plain _) hname (to_string_plain _) hgender
        hcontact hnotes⟩
  · simp only [loadAppointments]
    rw [getlines_saveAppointmentsContent, loadAppointmentsLoop_rendered as [] ha,
      List.nil_append]
  · rw [getlines_saveAppointmentsContent, List.forall₂_map_left_iff, List.forall₂_same]
    intro a hmem
    obtain ⟨_, _, hdoctor, hdate, htime, hreason⟩ := ha a hmem
    exact ⟨(renderAppointment_eq a).symm,
      splitLine_six _ _ _ _ _ _ (to_string_plain _) (to_string_plain _) hdoctor hdate
        htime hreason⟩

/-- Witness for C19: a patient whose name holds a pipe, a second patient, and
one appointment are loaded back unchanged. -/
theorem load_save_roundtrip_witness :
    loadPatients (some (savePatientsContent [samplePatient 1 "A|B".toList,
        samplePatient 2 "Ann".toList]))
      = .ok [samplePatient 1 "A|B".toList, samplePatient 2 "Ann".toList] ∧
    loadAppointments (some (saveAppointmentsContent [sampleAppointment 4 1]))
      = .ok [sampleAppointment 4 1] :=
  ⟨(load_save_roundtrip [samplePatient 1 "A|B".toList, samplePatient 2 "Ann".toList]
      [sampleAppointment 4 1] (by decide) (by decide)).1,
    (load_save_roundtrip [samplePatient 1 "A|B".toList, samplePatient 2 "Ann".toList]
      [sampleAppointment 4 1] (by decide) (by decide)).2.2.1⟩

end Clinic
